import Mathlib

/-!
# Verification of the a22x-map terrain tile engine

Shallow embedding of the `geo` container/codec crates and the `render`
tile-atlas cache, with proofs of the specified properties.

Machine integers are modelled as `Int`/`Nat` with explicit wrapping
(`% 2 ^ w`) at the points where the Rust code performs an `as` cast that
can wrap in release mode.
-/

namespace A22x

/-! ## Coordinate math (`src/geo/src/lib.rs`)

`map_lat_lon_to_index` / `map_index_to_lat_lon` operate on `i16`
latitude/longitude and `usize` indices.  In the checked domain
(lat ∈ [−90, 90), lon ∈ [−180, 180)) no cast wraps, so the functions are
embedded over `Int` with a plain `toNat`. -/

/-- `map_lat_lon_to_index` as executed on in-range inputs:
`(lat + 90) as usize * 360 + (lon + 180) as usize`. -/
def map_lat_lon_to_index (lat lon : Int) : Nat :=
  (lat + 90).toNat * 360 + (lon + 180).toNat

/-- `map_index_to_lat_lon`: `(index / 360 − 90, index % 360 − 180)`. -/
def map_index_to_lat_lon (index : Nat) : Int × Int :=
  ((index / 360 : Nat) - 90, (index % 360 : Nat) - 180)

/-- Release-mode `map_lat_lon_to_index`: the `debug_assert!` range checks
are compiled out, `lat + 90` and `lon + 180` are computed in `i16`
(wrapping on overflow) and cast to `usize` (sign-extending then wrapping
to 64 bits).  The multiplication and the addition are `usize` operations
modulo `2 ^ 64`. -/
def map_lat_lon_to_index_release (lat lon : Int) : Nat :=
  let lat16 := (lat + 90 + 32768) % 65536 - 32768
  let lon16 := (lon + 180 + 32768) % 65536 - 32768
  ((lat16 % 2 ^ 64).toNat * 360 + (lon16 % 2 ^ 64).toNat) % 2 ^ 64

/-! ## Frame walking and orphan enumeration (`src/geo/src/dataset/mod.rs`)

`Dataset::tile_frame_size` parses the outermost zstd framing: the frame
header descriptor byte, then 3-byte little-endian block headers until the
last-block bit.  `Dataset::get_orphaned_tiles` walks the payload region
with it.  Rust panics (out-of-bounds slice, `unreachable!` on block type
3) are modelled as `none`. -/

/-- Little-endian 24-bit read of `frame[off..off+3]`
(`LittleEndian::read_u24`). -/
def readU24 (frame : List Nat) (off : Nat) : Nat :=
  frame.getD off 0 + frame.getD (off + 1) 0 * 256 + frame.getD (off + 2) 0 * 65536

/-- The block-walking loop of `tile_frame_size`: starting at `offset`,
decode 3-byte block headers, accumulating block sizes until the
last-block bit.  Block type 3 is `unreachable!` (→ `none`); reading past
the end of the frame is an out-of-bounds panic (→ `none`). -/
def walkBlocks (frame : List Nat) (offset : Nat) : Option Nat :=
  if h : offset + 3 ≤ frame.length then
    let header := readU24 frame offset
    let blockContentSize := header / 8
    let last := header % 2
    let blockTy := header / 2 % 4
    if blockTy = 3 then none
    else
      let blockSize := 3 + (if blockTy = 1 then 1 else blockContentSize)
      if last = 1 then some (offset + blockSize)
      else walkBlocks frame (offset + blockSize)
  else none
termination_by frame.length - offset
decreasing_by omega

/-- `Dataset::tile_frame_size`: parse the frame header descriptor, then
walk block headers.  An empty frame is an out-of-bounds panic. -/
def tile_frame_size (frame : List Nat) : Option Nat :=
  match frame with
  | [] => none
  | headerDescriptor :: _ =>
    let dictId := headerDescriptor % 4
    let singleSegment := headerDescriptor / 32 % 2
    let sizeId := headerDescriptor / 64
    let headerSize := 1 + (1 - singleSegment) +
      (if dictId = 0 then 0 else if dictId = 1 then 1 else
        if dictId = 2 then 2 else 4) +
      (if sizeId = 0 then singleSegment else if sizeId = 1 then 2 else
        if sizeId = 2 then 4 else 8)
    walkBlocks frame headerSize

/-- Helper: a successful block walk ends at least three bytes past its
starting offset (every block header is 3 bytes). -/
theorem walkBlocks_ge (frame : List Nat) :
    ∀ k off n, frame.length - off ≤ k → walkBlocks frame off = some n →
      off + 3 ≤ n := by
  intro k
  induction k with
  | zero =>
    intro off n hk h
    rw [walkBlocks] at h
    split at h
    · omega
    · exact absurd h (by simp)
  | succ k ih =>
    intro off n hk h
    rw [walkBlocks] at h
    split at h
    case isTrue hlen =>
      simp only [] at h
      split at h
      · exact absurd h (by simp)
      · split at h
        · exact Option.some.inj h ▸ by omega
        · have := ih (off + (3 + _)) n (by omega) h
          omega
    case isFalse => exact absurd h (by simp)

/-- Helper: a successful `tile_frame_size` is at least 4 bytes
(1 header byte plus one 3-byte block header). -/
theorem tile_frame_size_ge {frame : List Nat} {n : Nat}
    (h : tile_frame_size frame = some n) : 4 ≤ n := by
  match frame with
  | [] => exact absurd h (by simp [tile_frame_size])
  | b :: rest =>
    unfold tile_frame_size at h
    have := walkBlocks_ge (b :: rest) (b :: rest).length _ n (by omega) h
    omega

/-- The walking loop of `Dataset::get_orphaned_tiles`.  `offsets` is the
`HashSet` of non-zero tile-map entries (elements are removed as frames
are matched); a frame is reported as orphaned when its absolute start
offset is not in the set. -/
def orphanLoop (data : List Nat) (dataOffset : Nat) (offset : Nat)
    (offsets : Finset Nat) : Option (List (Nat × Nat)) :=
  if hlt : offset < data.length then
    match hsz : tile_frame_size (data.drop offset) with
    | none => none
    | some size =>
      let tileOffset := offset + dataOffset
      if tileOffset ∈ offsets then
        orphanLoop data dataOffset (offset + size) (offsets.erase tileOffset)
      else
        (orphanLoop data dataOffset (offset + size) offsets).map
          (fun rest => (offset, size) :: rest)
  else if offset = data.length then some [] else none
termination_by data.length - offset
decreasing_by
  all_goals
    have : 4 ≤ size := tile_frame_size_ge hsz
    omega

/-- `Dataset::get_orphaned_tiles`: walk the payload region from offset 0,
with the set of non-zero offset-table entries. -/
def get_orphaned_tiles (tileMap : List Nat) (data : List Nat)
    (dataOffset : Nat) : Option (List (Nat × Nat)) :=
  orphanLoop data dataOffset 0 (tileMap.filter (· ≠ 0)).toFinset

/-- Spec-side orphan walk: identical frame walking, but each frame is
tested by plain membership in the fixed set of non-zero offset-table
entries, with no removal. -/
def specOrphanLoop (data : List Nat) (dataOffset : Nat) (offset : Nat)
    (offsets : Finset Nat) : Option (List (Nat × Nat)) :=
  if hlt : offset < data.length then
    match hsz : tile_frame_size (data.drop offset) with
    | none => none
    | some size =>
      if offset + dataOffset ∈ offsets then
        specOrphanLoop data dataOffset (offset + size) offsets
      else
        (specOrphanLoop data dataOffset (offset + size) offsets).map
          (fun rest => (offset, size) :: rest)
  else if offset = data.length then some [] else none
termination_by data.length - offset
decreasing_by
  all_goals
    have : 4 ≤ size := tile_frame_size_ge hsz
    omega

/-! ## Atlas garbage collection (`src/render/src/tile_cache.rs`)

`Atlas::collect_tiles` scans `used[start+1..]` zipped with
`tiles[start+1..]`; `TileOffset` is a pair of `u32`s.  The sentinels are
`unloaded = (0, height)` and `not_found = (width, 0)`. -/

/-- `Atlas::unloaded`: the UNLOADED residency sentinel `(0, height)`. -/
def unloadedOf (H : Nat) : Nat × Nat := (0, H)

/-- `Atlas::not_found`: the NOT_FOUND residency sentinel `(width, 0)`. -/
def notFoundOf (W : Nat) : Nat × Nat := (W, 0)

/-- The loop body of `Atlas::collect_tiles` over the zipped tail.
Returns (new tail, slots pushed onto `collected_tiles` in push order,
`needed` increments, `collected`). -/
def collectLoop (W H : Nat) :
    List (Nat × (Nat × Nat)) → List (Nat × Nat) × List (Nat × Nat) × Nat × Nat
  | [] => ([], [], 0, 0)
  | (u, off) :: rest =>
    let r := collectLoop W H rest
    if u = 1 ∧ off = unloadedOf H then
      (off :: r.1, r.2.1, r.2.2.1 + 1, r.2.2.2)
    else if off ≠ unloadedOf H ∧ off ≠ notFoundOf W then
      (unloadedOf H :: r.1, off :: r.2.1, r.2.2.1, r.2.2.2 + 1)
    else
      (off :: r.1, r.2.1, r.2.2.1, r.2.2.2)

/-- `Atlas::collect_tiles`: scan the tail of the cell array starting
after `start`; returns the updated residency array, the slots pushed to
the free list, and `collected >= needed` (with `needed` starting at 1). -/
def collect_tiles (W H : Nat) (used : List Nat) (tiles : List (Nat × Nat))
    (start : Nat) : List (Nat × Nat) × List (Nat × Nat) × Bool :=
  let z := (used.drop (start + 1)).zip (tiles.drop (start + 1))
  let r := collectLoop W H z
  (tiles.take (start + 1) ++ r.1 ++ (tiles.drop (start + 1)).drop z.length,
   r.2.1, decide (1 + r.2.2.1 ≤ r.2.2.2))

/-- The per-cell effect of the GC pass: a cell that is used and UNLOADED
adds demand and keeps its entry; any other cell holding a real slot is
evicted to UNLOADED; sentinel entries are unchanged. -/
def gcCell (W H : Nat) (p : Nat × (Nat × Nat)) : Nat × Nat :=
  if p.1 = 1 ∧ p.2 = unloadedOf H then p.2
  else if p.2 ≠ unloadedOf H ∧ p.2 ≠ notFoundOf W then unloadedOf H
  else p.2

/-- Boolean predicate: cell is used and UNLOADED (counts toward
`needed`). -/
def gcPendingB (H : Nat) (p : Nat × (Nat × Nat)) : Bool :=
  decide (p.1 = 1 ∧ p.2 = unloadedOf H)

/-- Boolean predicate: cell is freed by the GC pass (not
used-and-UNLOADED, and holds a real slot). -/
def gcFreedB (W H : Nat) (p : Nat × (Nat × Nat)) : Bool :=
  decide (¬(p.1 = 1 ∧ p.2 = unloadedOf H) ∧
    p.2 ≠ unloadedOf H ∧ p.2 ≠ notFoundOf W)

/-! ## Atlas allocator state (`src/render/src/tile_cache.rs`)

The pure allocation state of `Atlas`: dimensions, current LOD tile
resolution, the bump pointer `curr_offset`, and the free list
`collected_tiles` (a `Vec`: push appends, pop takes from the end).
GPU texture writes and the hillshade pass have no effect on this state
and are omitted. -/

structure AtlasState where
  width : Nat
  height : Nat
  currTileRes : Nat
  currOffset : Nat × Nat
  collectedTiles : List (Nat × Nat)
deriving DecidableEq, Repr

/-- The unconditional bump-pointer advance at the end of
`Atlas::upload_tile`: `curr_offset.x += R`; on `x + R >= width` the row
wraps (`x = 0`, `y += R`). -/
def bumpAdvance (s : AtlasState) : AtlasState :=
  let x := s.currOffset.1 + s.currTileRes
  if s.width ≤ x + s.currTileRes then
    { s with currOffset := (0, s.currOffset.2 + s.currTileRes) }
  else
    { s with currOffset := (x, s.currOffset.2) }

/-- `Atlas::upload_tile` (allocation logic): pop the free list if
non-empty, else take the bump pointer, refusing when
`ret.y + R >= height`; afterwards the bump pointer always advances. -/
def upload_tile (s : AtlasState) : Option ((Nat × Nat) × AtlasState) :=
  if h : s.collectedTiles ≠ [] then
    some (s.collectedTiles.getLast h,
      bumpAdvance { s with collectedTiles := s.collectedTiles.dropLast })
  else if s.height ≤ s.currOffset.2 + s.currTileRes then none
  else some (s.currOffset, bumpAdvance s)

/-- `Atlas::clear`: empty the free list, set the LOD tile resolution,
reset the bump pointer. -/
def atlasClear (s : AtlasState) (res : Nat) : AtlasState :=
  { s with collectedTiles := [], currTileRes := res, currOffset := (0, 0) }

/-- `Atlas::return_tile`: push an evicted slot onto the free list. -/
def return_tile (s : AtlasState) (t : Nat × Nat) : AtlasState :=
  { s with collectedTiles := s.collectedTiles ++ [t] }

/-- `Atlas::recreate_atlas`: refuse when both dimensions are already at
the device limit; otherwise double each dimension (clamped) and zero
`curr_tile_res`.  The free list and bump pointer are untouched (they are
reset by the `clear` on the next frame). -/
def recreate_atlas (maxDim : Nat) (s : AtlasState) : Option AtlasState :=
  if s.width = maxDim ∧ s.height = maxDim then none
  else some { s with
    width := min (s.width * 2) maxDim,
    height := min (s.height * 2) maxDim,
    currTileRes := 0 }

/-- `self.tiles.fill(self.atlas.unloaded())` in
`TileCache::populate_tiles` after a successful atlas resize. -/
def fillUnloaded (ts : List (Nat × Nat)) (H : Nat) : List (Nat × Nat) :=
  List.replicate ts.length (unloadedOf H)

/-- `K` successive tile admissions (`upload_tile` iterated, composing at
the end). -/
def uploadN : Nat → AtlasState → Option AtlasState
  | 0, s => some s
  | K + 1, s =>
    match uploadN K s with
    | none => none
    | some s' => (upload_tile s').map Prod.snd

/-! ## Version-6 tile decoder (`src/geo/src/dataset/ver6.rs`)

`get_tile` runs decompress → `unpalette` → `unpredict` → `unmap`.
Values are `u16` quanta modelled as `Nat < 2^16`, with explicit wrapping
where the Rust `as u16` / `u16` arithmetic can wrap in release mode.
Rust panics (`unreachable!`, out-of-bounds index) are modelled as
`none`. -/

/-- Little-endian 16-bit read of `d[off..off+2]`. -/
def readU16 (d : List Nat) (off : Nat) : Nat :=
  d.getD off 0 + d.getD (off + 1) 0 * 256

/-- Wrap an `i32` value to `u16` (`as u16` takes the low 16 bits). -/
def wrap16 (z : Int) : Nat := (z % 65536).toNat

/-- The in-place palette prefix-sum loop
(`palette[offset] += palette[offset - 1]`, `u16` addition). -/
def prefixSum16 (acc : Nat) : List Nat → List Nat
  | [] => []
  | x :: rest =>
    let v := (acc + x) % 65536
    v :: prefixSum16 v rest

/-- Palette lookup per pixel byte (`palette[*x as usize]`): an index at
or beyond the palette length is an out-of-bounds panic (→ `none`). -/
def indexMap (palette : List Nat) : List Nat → Option (List Nat)
  | [] => some []
  | x :: rest =>
    if x < palette.length then
      (indexMap palette rest).map (palette.getD x 0 :: ·)
    else none

/-- `ver6::unpalette`: branch on the decompressed length — raw
two-byte-per-pixel form (`res²·2 + 2`), raw one-byte form (`res² + 3`),
else a palette form (u16 palette when `raw_len = palette_len·2`, byte
palette when `raw_len = palette_len + 1`); any other length is
`unreachable!` (→ `none`; a length below `res² + 2` underflows the
`usize` subtraction and also ends in the panic). -/
def unpalette (res : Nat) (d : List Nat) : Option (List Nat) :=
  if d.length = res * res * 2 + 2 then
    let mn := readU16 d 0
    some ((List.range (res * res)).map
      (fun k => (readU16 d (2 + 2 * k) + mn) % 65536))
  else if d.length = res * res + 3 then
    let mn := readU16 d 0
    let first := readU16 d 2
    some (first :: (d.drop 4).map
      (fun x => if x = 0 then 0 else (x - 1 + mn) % 65536))
  else if d.length < res * res + 2 then none
  else
    let paletteLen := d.getD 0 0 + 1
    let rawLen := d.length - (res * res + 2)
    if rawLen = paletteLen * 2 then
      let en := paletteLen * 2 + 1
      let pal0 := readU16 d 1
      let deltas := (List.range (paletteLen - 1)).map
        (fun k => (readU16 d (3 + 2 * k) + 1) % 65536)
      let palette := prefixSum16 0 (pal0 :: deltas)
      let first := readU16 d en
      (indexMap palette (d.drop (en + 2))).map (fun rest => first :: rest)
    else if rawLen = paletteLen + 1 then
      let en := paletteLen + 2
      let pal0 := readU16 d 1
      let deltas := (List.range (paletteLen - 1)).map
        (fun k => d.getD (3 + k) 0 + 1)
      let palette := prefixSum16 0 (pal0 :: deltas)
      let first := readU16 d en
      (indexMap palette (d.drop (en + 2))).map (fun rest => first :: rest)
    else none

/-- `ver6::unpredict`'s `delta` helper: water sentinel (0) passes
through; otherwise add the residual minus the 7000 bias to the already
decoded `(0,0)` value (exact in `i32`, wrapped by the final `as u16`). -/
def deltaFn (current out : Nat) : Nat :=
  if out = 0 then 0 else wrap16 (current + ((out : Int) - 7000))

/-- `ver6::unpredict`'s `linear` helper: predictor
`current + (current − previous)` plus residual minus bias. -/
def linearFn (previous current out : Nat) : Nat :=
  if out = 0 then 0
  else wrap16 ((current : Int) + ((current : Int) - previous) +
    ((out : Int) - 7000))

/-- `ver6::unpredict`'s `plane` helper: predictor
`top + (left − top_left)` plus residual minus bias. -/
def planeFn (left top top_left out : Nat) : Nat :=
  if out = 0 then 0
  else wrap16 ((top : Int) + ((left : Int) - top_left) +
    ((out : Int) - 7000))

/-- First-row loop body of `ver6::unpredict`:
`unpaletted[x] = linear(unpaletted[x-2], unpaletted[x-1],
unpaletted[x])`. -/
def rowStep (b : List Nat) (x : Nat) : List Nat :=
  b.set x (linearFn (b.getD (x - 2) 0) (b.getD (x - 1) 0) (b.getD x 0))

/-- First-column loop body of `ver6::unpredict`:
`unpaletted[y*res] = linear(unpaletted[(y-2)*res],
unpaletted[(y-1)*res], unpaletted[y*res])`. -/
def colStep (res : Nat) (b : List Nat) (y : Nat) : List Nat :=
  b.set (y * res) (linearFn (b.getD ((y - 2) * res) 0)
    (b.getD ((y - 1) * res) 0) (b.getD (y * res) 0))

/-- Interior loop body of `ver6::unpredict` at column `x`, row `y`:
`unpaletted[y*res+x] = plane(left, top, top_left,
unpaletted[y*res+x])`. -/
def planeStep (res x : Nat) (b : List Nat) (y : Nat) : List Nat :=
  b.set (y * res + x) (planeFn (b.getD (y * res + x - 1) 0)
    (b.getD ((y - 1) * res + x) 0)
    (b.getD ((y - 1) * res + x - 1) 0)
    (b.getD (y * res + x) 0))

/-- `ver6::unpredict`: in-place un-prediction.  `(1,0)` and `(0,1)` are
deltas from `(0,0)`; the first row (`x ∈ [2, res)`) and first column
(`y ∈ [2, res)`) are linear; the interior is the plane predictor, with
`x` as the outer loop.  Faithful for `res ≥ 2` (for `res < 2` the Rust
code panics on the out-of-bounds writes which `List.set` ignores). -/
def unpredict (res : Nat) (v : List Nat) : List Nat :=
  let a1 := v.set 1 (deltaFn (v.getD 0 0) (v.getD 1 0))
  let a2 := a1.set res (deltaFn (a1.getD 0 0) (a1.getD res 0))
  let a3 := (List.range' 2 (res - 2)).foldl rowStep a2
  let a4 := (List.range' 2 (res - 2)).foldl (colStep res) a3
  (List.range' 1 (res - 1)).foldl (fun b x =>
    (List.range' 1 (res - 1)).foldl (planeStep res x) b) a4

/-- Wrap an `i32` value to `i16` (`as i16`). -/
def toI16 (z : Int) : Int := (z + 32768) % 65536 - 32768

/-- `ver6::unmap`: `h * height_res` (`u16`, wrapping), then
`(h as i32 - 500) as i16`. -/
def unmap (heightRes : Nat) (u : List Nat) : List Int :=
  u.map (fun h => toI16 ((h * heightRes) % 65536 - 500))

/-- Result of a `ver6::get_tile` call: absent tiles aside, a tile read
either surfaces a per-tile `io::Error`, panics inside the
decode pipeline, or yields the decoded grid. -/
inductive TileResult where
  | ioErr : TileResult
  | panicked : TileResult
  | ok : List Int → TileResult
deriving DecidableEq, Repr

/-- `ver6::get_tile` with the zstd decompressor abstracted as `D`
(an `Except` mirroring the `io::Result` of `decompress`): offset-table
lookup, frame slice from the memory map, decompress (errors returned
per-tile), then `unpalette → unpredict → unmap` (panics propagate). -/
def get_tile_v6 (D : List Nat → Except Unit (List Nat))
    (tileMap : List Nat) (data : List Nat) (dataOffset : Nat)
    (heightRes res i : Nat) : Option TileResult :=
  let offset := tileMap.getD i 0
  if offset = 0 then none
  else
    match D (data.drop (offset - dataOffset)) with
    | .error _ => some .ioErr
    | .ok dec =>
      match unpalette res dec with
      | none => some .panicked
      | some u => some (.ok (unmap heightRes (unpredict res u)))

/-! ## Builder-side codec and reader-side decode
(`src/geo/src/builder.rs` `DatasetBuilder::add_tile`,
`src/geo/src/dataset/mod.rs` `get_tile_and_compressed_size`)

`add_tile` reorders the grid into `tiling × tiling` sub-tiles, quantises
each height (`(h + 500) as f32 / H`, rounded, cast to `u16`) and emits
little-endian byte pairs; the reader reverses the reorder and multiplies
back.  The zstd frame in between is an external lossless transport and
is modelled as the identity. -/

/-- The sub-tiling reorder: flattened output index `k` (tile-major)
reads input pixel `y·res + x` where
`x = (i % tiles_per_row)·tiling + j % tiling`,
`y = (i / tiles_per_row)·tiling + j / tiling`,
`i = k / tiling²`, `j = k % tiling²`. -/
def tilePos (res tiling k : Nat) : Nat :=
  let tileSize := tiling * tiling
  let tilesPerRow := res / tiling
  let i := k / tileSize
  let j := k % tileSize
  let x := (i % tilesPerRow) * tiling + j % tiling
  let y := (i / tilesPerRow) * tiling + j / tiling
  y * res + x

/-- Inverse of `tilePos` (derived, for the bijection proof). -/
def invTilePos (res tiling p : Nat) : Nat :=
  (p / res / tiling * (res / tiling) + p % res / tiling) *
    (tiling * tiling) + (p / res % tiling * tiling + p % res % tiling)

/-- Quantisation: `(positive_height as f32 / height_resolution as f32)
.round() as u16`.  For the verified domain (`ph ≤ 10500`,
`H ∈ {1, 5, 50}`) the `f32` computation is exact and rounds half away
from zero, which for non-negative values is `(2·ph + H) / (2·H)`; the
`as u16` cast saturates at 65535. -/
def quantU16 (H ph : Nat) : Nat := min ((2 * ph + H) / (2 * H)) 65535

/-- The data-preparation stage of `DatasetBuilder::add_tile`: for each
flattened sub-tile index `k`, quantise the height at `tilePos k`
(negative `h + 500` saturates to quantum 0 through the `f32 → u16`
cast, matching `Int.toNat`) and emit its `u16` little-endian bytes. -/
def add_tile_prep (res tiling H : Nat) (heights : List Int) : List Nat :=
  (List.range (res * res)).flatMap (fun k =>
    [quantU16 H (heights.getD (tilePos res tiling k) 0 + 500).toNat % 256,
     quantU16 H (heights.getD (tilePos res tiling k) 0 + 500).toNat / 256])

/-- The untile-and-unquantise stage of
`Dataset::get_tile_and_compressed_size`: start from a zero vector,
read each `u16` quantum back from its byte pair, multiply by `H`
(`u16`, wrapping), reinterpret as `i16` and subtract 500, storing at
`tilePos k`. -/
def get_tile_untile (res tiling H : Nat) (bytes : List Nat) : List Int :=
  (List.range (res * res)).foldl (fun out k =>
    out.set (tilePos res tiling k)
      (toI16 (((bytes.getD (2 * k) 0 + bytes.getD (2 * k + 1) 0 * 256) * H :
        Nat) % 65536 - 500)))
    (List.replicate (res * res) (0 : Int))

/-! ## Container file: builder and version-4 reader
(`src/geo/src/builder.rs`, `src/geo/src/dataset/ver4.rs`)

The file is modelled as a byte accessor plus a size.  The builder
(dictionary-free configuration, `dictionary = []`) creates the
version-4 layout (13-byte header, 8-byte dictionary length, 64800 × 8
byte offset table, appended payload frames), `add_tile` appends a
frame at EOF and records the absolute offset, `flush` rewrites the
offset table at its fixed position 13.  The zstd frame is an external
lossless transport and is modelled as the identity, so a frame's bytes
are the `add_tile_prep` output. -/

structure ContainerFile where
  bytes : Nat → Nat
  size : Nat

/-- Write a byte list at an absolute offset (existing bytes outside the
range are unchanged; the file grows as needed). -/
def writeBytes (f : ContainerFile) (off : Nat) (data : List Nat) :
    ContainerFile :=
  { bytes := fun p =>
      if off ≤ p ∧ p < off + data.length then data.getD (p - off) 0
      else f.bytes p,
    size := max f.size (off + data.length) }

/-- Write a byte region given by an accessor function (used for the raw
reinterpretation of the 64800-entry `u64` offset table). -/
def writeRegion (f : ContainerFile) (off len : Nat) (g : Nat → Nat) :
    ContainerFile :=
  { bytes := fun p => if off ≤ p ∧ p < off + len then g (p - off) else f.bytes p,
    size := max f.size (off + len) }

/-- `seek(End) → write`: append at EOF. -/
def appendBytes (f : ContainerFile) (data : List Nat) : ContainerFile :=
  writeBytes f f.size data

/-- Byte `b` of the little-endian `u64` encoding of `v`. -/
def u64Byte (v b : Nat) : Nat := v / 256 ^ b % 256

/-- Byte `r` of the raw little-endian reinterpretation of the offset
table (entry `r / 8`, byte `r % 8`). -/
def tileMapBytesAt (tm : Nat → Nat) (r : Nat) : Nat := u64Byte (tm (r / 8)) (r % 8)

/-- The 13-byte version-4 header written by
`DatasetBuilder::write_to_file`: magic `{115,117,115,115,121}`, version
4, resolution, height resolution, tiling (all little-endian `u16`). -/
def headerV4 (res hres tiling : Nat) : List Nat :=
  [115, 117, 115, 115, 121, 4, 0, res % 256, res / 256 % 256,
   hres % 256, hres / 256 % 256, tiling % 256, tiling / 256 % 256]

structure BuilderState where
  tileMap : Nat → Nat
  file : ContainerFile

/-- `DatasetBuilder::new` (empty dictionary): create the file with
header, zero dictionary length, zero offset table, no payload. -/
def builderNew (res hres tiling : Nat) : BuilderState :=
  let f0 := appendBytes ⟨fun _ => 0, 0⟩ (headerV4 res hres tiling)
  let f1 := appendBytes f0 (List.replicate 8 0)
  let f2 := writeRegion f1 f1.size (64800 * 8) (tileMapBytesAt (fun _ => 0))
  { tileMap := fun _ => 0, file := f2 }

/-- `DatasetBuilder::add_tile`: quantise and tile the grid, append the
frame at EOF under the write lock, and record the absolute offset in
the in-memory offset table. -/
def addTile (res tiling hres : Nat) (b : BuilderState) (cell : Nat)
    (heights : List Int) : BuilderState :=
  { tileMap := fun i => if i = cell then b.file.size else b.tileMap i,
    file := appendBytes b.file (add_tile_prep res tiling hres heights) }

/-- `DatasetBuilder::flush` (version 4): seek to offset 13 and write the
offset table as raw little-endian bytes. -/
def builderFlush (b : BuilderState) : BuilderState :=
  { b with file := writeRegion b.file 13 (64800 * 8) (tileMapBytesAt b.tileMap) }

/-- Build a container: create, add every tile, flush (`finish`). -/
def buildAll (res hres tiling : Nat) (adds : List (Nat × List Int)) :
    BuilderState :=
  builderFlush (adds.foldl (fun b ch => addTile res tiling hres b ch.1 ch.2)
    (builderNew res hres tiling))

/-- Little-endian `u16` read through a byte accessor. -/
def readU16f (g : Nat → Nat) (off : Nat) : Nat := g off + g (off + 1) * 256

/-- Little-endian `u64` read through a byte accessor. -/
def readU64f (g : Nat → Nat) (off : Nat) : Nat :=
  g off + g (off + 1) * 256 + g (off + 2) * 256 ^ 2 + g (off + 3) * 256 ^ 3 +
    g (off + 4) * 256 ^ 4 + g (off + 5) * 256 ^ 5 + g (off + 6) * 256 ^ 6 +
    g (off + 7) * 256 ^ 7

structure DatasetState where
  resolution : Nat
  height_resolution : Nat
  tiling : Nat
  tileMapR : Nat → Nat
  dataOffset : Nat
  data : Nat → Nat
  dataLen : Nat

/-- `ver4::load`: check magic and version, read the metadata fields,
the offset table at its fixed position 13, the dictionary length, and
memory-map the remainder from `data_offset`.  Truncated files are
`InvalidFileSize` (→ `none`). -/
def loadV4 (f : ContainerFile) : Option DatasetState :=
  if f.size < 7 then none
  else if ¬ (f.bytes 0 = 115 ∧ f.bytes 1 = 117 ∧ f.bytes 2 = 115 ∧
    f.bytes 3 = 115 ∧ f.bytes 4 = 121) then none
  else if readU16f f.bytes 5 ≠ 4 then none
  else if f.size < 13 + 64800 * 8 + 8 + readU64f f.bytes (13 + 64800 * 8) then
    none
  else some
    { resolution := readU16f f.bytes 7,
      height_resolution := readU16f f.bytes 9,
      tiling := readU16f f.bytes 11,
      tileMapR := fun i => readU64f f.bytes (13 + 8 * i),
      dataOffset := 13 + 64800 * 8 + 8 + readU64f f.bytes (13 + 64800 * 8),
      data := fun p =>
        f.bytes (13 + 64800 * 8 + 8 + readU64f f.bytes (13 + 64800 * 8) + p),
      dataLen := f.size -
        (13 + 64800 * 8 + 8 + readU64f f.bytes (13 + 64800 * 8)) }

/-- `Dataset::tile_exists` on the reader. -/
def tile_exists_r (d : DatasetState) (cell : Nat) : Bool :=
  decide (d.tileMapR cell ≠ 0)

/-- `Dataset::get_tile` on the reader: `None` when the offset-table
entry is zero; otherwise decompress (identity transport) the
`res²·2`-byte frame from the memory map and untile it. -/
def get_tile_r (d : DatasetState) (cell : Nat) : Option (List Int) :=
  if d.tileMapR cell = 0 then none
  else some (get_tile_untile d.resolution d.tiling d.height_resolution
    ((List.range (d.resolution * d.resolution * 2)).map
      (fun i => d.data (d.tileMapR cell - d.dataOffset + i))))

/-- The builder invariant after adding a list of tiles to a fresh
container: the header and the dictionary/offset-table region are
untouched, every added cell's offset points at its intact frame in the
payload region, and unwritten cells are zero. -/
def BuildInv (res hres tiling : Nat) (adds : List (Nat × List Int))
    (b : BuilderState) : Prop :=
  b.file.size = 518421 + adds.length * (2 * (res * res)) ∧
  (∀ j, j < 13 → b.file.bytes j = (headerV4 res hres tiling).getD j 0) ∧
  (∀ j, 13 ≤ j → j < 518421 → b.file.bytes j = 0) ∧
  (∀ ch ∈ adds, 518421 ≤ b.tileMap ch.1 ∧
    b.tileMap ch.1 + 2 * (res * res) ≤ b.file.size ∧
    (∀ i, i < 2 * (res * res) → b.file.bytes (b.tileMap ch.1 + i) =
      (add_tile_prep res tiling hres ch.2).getD i 0)) ∧
  (∀ q, q ∉ adds.map Prod.fst → b.tileMap q = 0)

/-- The specification's un-prediction recurrence at pixel `(x, y)`,
stated on the residual array `v` and the decoder's output array `out`:
water sentinels (stored 0) pass through; `(0,0)` is stored raw; `(1,0)`
and `(0,1)` add the biased residual to the decoded `(0,0)`; the rest of
the first row and first column use the linear predictor
`2·current − previous`; interior pixels use the plane predictor
`above + (left − top_left)` — in each case adding the stored residual
minus the 7000 bias, wrapped to `u16` as the code's `as u16` cast
does. -/
def unpredictSpecAt (res : Nat) (v out : List Nat) (x y : Nat) : Prop :=
  let i := y * res + x
  if v.getD i 0 = 0 then out.getD i 0 = 0
  else if x = 0 ∧ y = 0 then out.getD i 0 = v.getD i 0
  else if (x = 1 ∧ y = 0) ∨ (x = 0 ∧ y = 1) then
    out.getD i 0 = wrap16 (out.getD 0 0 + ((v.getD i 0 : Int) - 7000))
  else if y = 0 then
    out.getD i 0 = wrap16 (2 * (out.getD (x - 1) 0 : Int) -
      out.getD (x - 2) 0 + ((v.getD i 0 : Int) - 7000))
  else if x = 0 then
    out.getD i 0 = wrap16 (2 * (out.getD ((y - 1) * res) 0 : Int) -
      out.getD ((y - 2) * res) 0 + ((v.getD i 0 : Int) - 7000))
  else
    out.getD i 0 = wrap16 ((out.getD ((y - 1) * res + x) 0 : Int) +
      ((out.getD (i - 1) 0 : Int) - out.getD ((y - 1) * res + x - 1) 0) +
      ((v.getD i 0 : Int) - 7000))

/-- Outcome of `dataset.get_tile` for one cell, as seen by the driver:
absent (`None`), a per-tile io error (`Some(Err(_))`, logged and
skipped), or a successful tile (`Some(Ok(_))`). -/
inductive FetchOutcome where
  | absent : FetchOutcome
  | ioErr : FetchOutcome
  | ok : FetchOutcome
deriving DecidableEq

/-- Driver-visible state of `TileCache::populate_tiles`: the atlas
allocator state and the per-cell residency table `tiles`. -/
structure DriverState where
  atlas : AtlasState
  tiles : List (Nat × Nat)
deriving DecidableEq

/-- Appending the slots freed by `Atlas::collect_tiles` onto the free
list. -/
def gcAtlas (a : AtlasState) (pushed : List (Nat × Nat)) : AtlasState :=
  { a with collectedTiles := a.collectedTiles ++ pushed }

/-- One iteration of the `populate_tiles` cell loop at cell `i`: evict
an unused resident cell, skip resident/NOT_FOUND cells, record NOT_FOUND
or skip on fetch failure, otherwise admit via `upload_tile`, retrying
after the GC pass, and on allocation failure resize (resetting the
residency table) or abort the frame.  The boolean is the `break 'outer`
flag. -/
def stepCell (maxDim : Nat) (used : List Nat) (fetch : Nat → FetchOutcome)
    (s : DriverState) (i : Nat) : DriverState × Bool :=
  if used.getD i 0 = 0 then
    if s.tiles.getD i (0, 0) ≠ unloadedOf s.atlas.height ∧
        s.tiles.getD i (0, 0) ≠ notFoundOf s.atlas.width then
      (⟨return_tile s.atlas (s.tiles.getD i (0, 0)),
        s.tiles.set i (unloadedOf s.atlas.height)⟩, false)
    else (s, false)
  else if s.tiles.getD i (0, 0) ≠ unloadedOf s.atlas.height then (s, false)
  else
    match fetch i with
    | FetchOutcome.absent =>
      (⟨s.atlas, s.tiles.set i (notFoundOf s.atlas.width)⟩, false)
    | FetchOutcome.ioErr => (s, false)
    | FetchOutcome.ok =>
      match upload_tile s.atlas with
      | some (slot, a2) => (⟨a2, s.tiles.set i slot⟩, false)
      | none =>
        let g := collect_tiles s.atlas.width s.atlas.height used s.tiles i
        if g.2.2 then
          match upload_tile (gcAtlas s.atlas g.2.1) with
          | some (slot, a2) => (⟨a2, g.1.set i slot⟩, false)
          | none => (⟨gcAtlas s.atlas g.2.1, g.1⟩, true)
        else
          match recreate_atlas maxDim (gcAtlas s.atlas g.2.1) with
          | some a2 => (⟨a2, fillUnloaded g.1 a2.height⟩, true)
          | none => (⟨gcAtlas s.atlas g.2.1, g.1⟩, true)

/-- A driver frame: fold `stepCell` over the visited cell indices,
stopping at the `break 'outer` flag. -/
def driverFrame (maxDim : Nat) (used : List Nat)
    (fetch : Nat → FetchOutcome) : List Nat → DriverState → DriverState
  | [], s => s
  | i :: rest, s =>
    let r := stepCell maxDim used fetch s i
    if r.2 then r.1 else driverFrame maxDim used fetch rest r.1

/-- A slot is geometrically valid for the current atlas: its `R×R`
extent fits inside the texture and its origin is strictly inside. -/
def slotOk (a : AtlasState) (p : Nat × Nat) : Prop :=
  p.1 + a.currTileRes ≤ a.width ∧ p.2 + a.currTileRes ≤ a.height ∧
  p.1 < a.width ∧ p.2 < a.height

instance decSlotOk (a : AtlasState) (p : Nat × Nat) : Decidable (slotOk a p) := by
  unfold slotOk
  infer_instance

/-- A slot lies strictly before the bump frontier in allocation order
(row-major by `y`, then `x`). -/
def beforeFrontier (a : AtlasState) (p : Nat × Nat) : Prop :=
  p.2 < a.currOffset.2 ∨ (p.2 = a.currOffset.2 ∧ p.1 < a.currOffset.1)

instance decBeforeFrontier (a : AtlasState) (p : Nat × Nat) :
    Decidable (beforeFrontier a p) := by
  unfold beforeFrontier
  infer_instance

/-- A residency entry holds a real slot (is neither sentinel). -/
def isRealSlot (a : AtlasState) (p : Nat × Nat) : Prop :=
  p ≠ unloadedOf a.height ∧ p ≠ notFoundOf a.width

instance decIsRealSlot (a : AtlasState) (p : Nat × Nat) :
    Decidable (isRealSlot a p) := by
  unfold isRealSlot
  infer_instance

/-- Boolean form of `isRealSlot`, for filtering. -/
def isRealB (a : AtlasState) (p : Nat × Nat) : Bool :=
  decide (p ≠ unloadedOf a.height ∧ p ≠ notFoundOf a.width)

/-- All live slots of the driver state: real residency entries followed
by the free list. -/
def liveSlots (s : DriverState) : List (Nat × Nat) :=
  s.tiles.filter (fun p => isRealB s.atlas p) ++ s.atlas.collectedTiles

/-- The residency well-formedness invariant: atlas dimensions within
the device limit, the bump frontier's row fits horizontally, and the
live slots (real residency entries plus the free list) are pairwise
distinct, geometrically valid, and strictly behind the bump frontier. -/
def RInv (maxDim : Nat) (s : DriverState) : Prop :=
  s.atlas.width ≤ maxDim ∧ s.atlas.height ≤ maxDim ∧
  s.atlas.currOffset.1 + s.atlas.currTileRes ≤ s.atlas.width ∧
  (liveSlots s).Nodup ∧
  (∀ p ∈ liveSlots s, slotOk s.atlas p ∧ beforeFrontier s.atlas p)

instance decRInv (maxDim : Nat) (s : DriverState) : Decidable (RInv maxDim s) := by
  unfold RInv
  infer_instance

end A22x

/-! ## Theorems -/

namespace A22x

/-- **C3** Cell-index bijection: for every `lat ∈ [−90, 90)` and
`lon ∈ [−180, 180)`, `map_lat_lon_to_index` returns
`(lat + 90) * 360 + (lon + 180)`; the mapping is injective on that range,
its image is exactly `[0, 64800)`, and `map_index_to_lat_lon` inverts it. -/
theorem cell_index_bijection :
    (∀ lat lon : Int, -90 ≤ lat → lat < 90 → -180 ≤ lon → lon < 180 →
      (map_lat_lon_to_index lat lon : Int) = (lat + 90) * 360 + (lon + 180) ∧
      map_lat_lon_to_index lat lon < 64800 ∧
      map_index_to_lat_lon (map_lat_lon_to_index lat lon) = (lat, lon)) ∧
    (∀ lat lon lat' lon' : Int, -90 ≤ lat → lat < 90 → -180 ≤ lon → lon < 180 →
      -90 ≤ lat' → lat' < 90 → -180 ≤ lon' → lon' < 180 →
      map_lat_lon_to_index lat lon = map_lat_lon_to_index lat' lon' →
      lat = lat' ∧ lon = lon') ∧
    (∀ i : Nat, i < 64800 → ∃ lat lon : Int,
      -90 ≤ lat ∧ lat < 90 ∧ -180 ≤ lon ∧ lon < 180 ∧
      map_lat_lon_to_index lat lon = i) := by
  refine ⟨?_, ?_, ?_⟩
  · intro lat lon h1 h2 h3 h4
    refine ⟨?_, ?_, ?_⟩
    · unfold map_lat_lon_to_index
      omega
    · unfold map_lat_lon_to_index
      omega
    · unfold map_lat_lon_to_index map_index_to_lat_lon
      have hlat : (lat + 90).toNat < 180 := by omega
      have hlon : (lon + 180).toNat < 360 := by omega
      have hdiv : ((lat + 90).toNat * 360 + (lon + 180).toNat) / 360 = (lat + 90).toNat := by
        omega
      have hmod : ((lat + 90).toNat * 360 + (lon + 180).toNat) % 360 = (lon + 180).toNat := by
        omega
      rw [hdiv, hmod]
      refine Prod.ext ?_ ?_ <;> simp <;> omega
  · intro lat lon lat' lon' h1 h2 h3 h4 h5 h6 h7 h8 heq
    unfold map_lat_lon_to_index at heq
    omega
  · intro i hi
    refine ⟨(i / 360 : Nat) - 90, (i % 360 : Nat) - 180, ?_, ?_, ?_, ?_, ?_⟩
    · omega
    · have : i / 360 < 180 := by omega
      omega
    · omega
    · have : i % 360 < 360 := Nat.mod_lt _ (by norm_num)
      omega
    · unfold map_lat_lon_to_index
      have h1 : i / 360 < 180 := by omega
      have h2 : i % 360 < 360 := Nat.mod_lt _ (by norm_num)
      omega

/-- Witness for C3 at `lat = 45`, `lon = 10`. -/
theorem cell_index_bijection_witness :
    map_index_to_lat_lon (map_lat_lon_to_index 45 10) = (45, 10) :=
  ((cell_index_bijection.1 45 10 (by decide) (by decide) (by decide)
    (by decide)).2.2)

/-- Helper for C5: the orphan walk with set-removal computes the same
result as the walk that only tests membership in a fixed set, provided
the two sets agree on all offsets at or beyond the current position
(removed entries are always strictly behind the walk). -/
theorem orphanLoop_eq_spec (data : List Nat) (d : Nat) :
    ∀ k offset S T, data.length - offset ≤ k →
      (∀ o, offset + d ≤ o → (o ∈ S ↔ o ∈ T)) →
      orphanLoop data d offset S = specOrphanLoop data d offset T := by
  intro k
  induction k with
  | zero =>
    intro offset S T hk hST
    rw [orphanLoop, specOrphanLoop]
    have hge : ¬ offset < data.length := by omega
    simp only [dif_neg hge]
  | succ k ih =>
    intro offset S T hk hST
    rw [orphanLoop, specOrphanLoop]
    by_cases hlt : offset < data.length
    · simp only [dif_pos hlt]
      cases hsz : tile_frame_size (data.drop offset) with
      | none => simp only [hsz]
      | some size =>
        have hsize4 : 4 ≤ size := tile_frame_size_ge hsz
        have hmem : (offset + d ∈ S) ↔ (offset + d ∈ T) := hST _ le_rfl
        simp only [hsz]
        by_cases hin : offset + d ∈ S
        · simp only [if_pos hin, if_pos (hmem.mp hin)]
          refine ih (offset + size) _ T (by omega) (fun o ho => ?_)
          rw [Finset.mem_erase]
          constructor
          · rintro ⟨-, h⟩
            exact (hST o (by omega)).mp h
          · intro h
            exact ⟨by omega, (hST o (by omega)).mpr h⟩
        · simp only [if_neg hin, if_neg (fun h => hin (hmem.mpr h))]
          rw [ih (offset + size) S T (by omega) (fun o ho => hST o (by omega))]
    · simp only [dif_neg hlt]

/-- **C5** Orphan enumeration: `get_orphaned_tiles` walks the payload
region sequentially by decoding each frame's length from its header and
returns exactly the `(offset, length)` ranges of frames whose absolute
start offset is not a non-zero offset-table entry (the walk with
`HashSet` removal equals the pure membership filter); any block type
other than raw (0), RLE (1), or compressed (2) is a hard error. -/
theorem orphan_enumeration :
    (∀ tileMap data dataOffset,
      get_orphaned_tiles tileMap data dataOffset =
        specOrphanLoop data dataOffset 0 (tileMap.filter (· ≠ 0)).toFinset) ∧
    (∀ frame off, off + 3 ≤ frame.length → readU24 frame off / 2 % 4 = 3 →
      walkBlocks frame off = none) := by
  constructor
  · intro tileMap data dataOffset
    exact orphanLoop_eq_spec data dataOffset data.length 0 _ _ (by omega)
      (fun o _ => Iff.rfl)
  · intro frame off hlen hty
    rw [walkBlocks]
    simp only [dif_pos hlen, hty]
    simp

/-- Witness for C5: a one-frame payload (frame header descriptor `32`,
one raw block of one byte, total frame length 6) whose start is not in
the offset table is reported as orphaned; a block header with block type
3 is a hard error. -/
theorem orphan_enumeration_witness :
    get_orphaned_tiles [0, 106] [32, 0, 9, 0, 0, 7] 100 =
      specOrphanLoop [32, 0, 9, 0, 0, 7] 100 0
        (([0, 106] : List Nat).filter (· ≠ 0)).toFinset ∧
    walkBlocks [7, 0, 0] 0 = none :=
  ⟨orphan_enumeration.1 [0, 106] [32, 0, 9, 0, 0, 7] 100,
   orphan_enumeration.2 [7, 0, 0] 0 (by decide) (by decide)⟩

/-- Helper: `getD` through `take`. -/
theorem getD_take_lt {α : Type} (l : List α) (n m : Nat) (d : α) (h : m < n) :
    (l.take n).getD m d = l.getD m d := by
  rw [List.getD_eq_getElem?_getD, List.getD_eq_getElem?_getD,
    List.getElem?_take, if_pos h]

/-- Helper: `getD` through `drop`. -/
theorem getD_drop_add {α : Type} (l : List α) (i j : Nat) (d : α) :
    (l.drop i).getD j d = l.getD (i + j) d := by
  rw [List.getD_eq_getElem?_getD, List.getD_eq_getElem?_getD,
    List.getElem?_drop]

/-- Helper: `getD` through `zip` at an in-range index. -/
theorem getD_zip {α β : Type} (l1 : List α) (l2 : List β) (i : Nat)
    (d1 : α) (d2 : β) (h1 : i < l1.length) (h2 : i < l2.length) :
    (l1.zip l2).getD i (d1, d2) = (l1.getD i d1, l2.getD i d2) := by
  have e : (l1.zip l2).get? i = some (l1.get ⟨i, h1⟩, l2.get ⟨i, h2⟩) :=
    (List.get?_zip_eq_some _ _ _ _).mpr ⟨List.get?_eq_get h1, List.get?_eq_get h2⟩
  rw [List.getD_eq_getD_get?, e, Option.getD_some,
    List.getD_eq_getElem _ _ h1, List.getD_eq_getElem _ _ h2]
  rfl

/-- Helper for C7: pointwise characterisation of the GC loop. -/
theorem collectLoop_spec (W H : Nat) (z : List (Nat × (Nat × Nat))) :
    (collectLoop W H z).1.length = z.length ∧
    (∀ i, i < z.length →
      (collectLoop W H z).1.getD i (0, 0) = gcCell W H (z.getD i (0, (0, 0)))) ∧
    (collectLoop W H z).2.1 = (z.filter (gcFreedB W H)).map Prod.snd ∧
    (collectLoop W H z).2.2.1 = z.countP (gcPendingB H) ∧
    (collectLoop W H z).2.2.2 = z.countP (gcFreedB W H) := by
  induction z with
  | nil => simp [collectLoop]
  | cons p rest ih =>
    obtain ⟨u, off⟩ := p
    obtain ⟨ih1, ih2, ih3, ih4, ih5⟩ := ih
    by_cases h1 : u = 1 ∧ off = unloadedOf H
    · refine ⟨?_, ?_, ?_, ?_, ?_⟩ <;>
        simp only [collectLoop, if_pos h1, List.length_cons, List.countP_cons,
          List.filter_cons, gcPendingB, gcFreedB, h1]
      · simpa using ih1
      · intro i hi
        cases i with
        | zero => simp [gcCell, h1]
        | succ i => simpa using ih2 i (by simpa using hi)
      · simpa [gcFreedB, h1] using ih3
      · simp [ih4]
      · simpa [gcFreedB, h1] using ih5
    · by_cases h2 : off ≠ unloadedOf H ∧ off ≠ notFoundOf W
      · refine ⟨?_, ?_, ?_, ?_, ?_⟩ <;>
          simp only [collectLoop, if_neg h1, if_pos h2, List.length_cons,
            List.countP_cons, List.filter_cons]
        · simpa using ih1
        · intro i hi
          cases i with
          | zero => simp [gcCell, h1, h2]
          | succ i => simpa using ih2 i (by simpa using hi)
        · simpa [gcFreedB, h1, h2] using ih3
        · simpa [gcPendingB, h1] using ih4
        · simpa [gcFreedB, h1, h2] using ih5
      · refine ⟨?_, ?_, ?_, ?_, ?_⟩ <;>
          simp only [collectLoop, if_neg h1, if_neg h2, List.length_cons,
            List.countP_cons, List.filter_cons]
        · simpa using ih1
        · intro i hi
          cases i with
          | zero => simp [gcCell, h1, h2]
          | succ i => simpa using ih2 i (by simpa using hi)
        · simpa [gcFreedB, h1, h2] using ih3
        · simpa [gcPendingB, h1] using ih4
        · simpa [gcFreedB, h1, h2] using ih5

/-- **C7 (counterexample)** The GC pass frees the slot of a cell whose
`used` flag is 1: with atlas 4×4, cell 1 is used (`used[1] = 1`) and
holds the real slot `(1, 1)`, yet `collect_tiles` evicts it to UNLOADED
and pushes its slot onto the free list, refuting "a cell's atlas slot is
returned to the free list only if that cell's used flag is 0". -/
theorem collect_tiles_frees_used_cell :
    ([0, 1] : List Nat).getD 1 0 = 1 ∧
    ([(0, 4), (1, 1)] : List (Nat × Nat)).getD 1 (0, 0) ≠ unloadedOf 4 ∧
    ([(0, 4), (1, 1)] : List (Nat × Nat)).getD 1 (0, 0) ≠ notFoundOf 4 ∧
    (collect_tiles 4 4 [0, 1] [(0, 4), (1, 1)] 0).1.getD 1 (0, 0) =
      unloadedOf 4 ∧
    (collect_tiles 4 4 [0, 1] [(0, 4), (1, 1)] 0).2.1 = [(1, 1)] := by
  decide

/-- **C7 (amended)** During the GC pass over the tail of the cell array:
cells at or before `start` are untouched; a tail cell that is used and
UNLOADED keeps its entry and adds pending demand; every *other* tail
cell holding a real slot — including cells with `used == 1` — has its
slot returned to the free list and its residency set to UNLOADED; tail
cells with sentinel residency are unchanged; the slots pushed to the
free list are exactly the freed cells' slots in scan order; and
admission is retried exactly when the freed count reaches the pending
demand (1 plus the number of used-and-UNLOADED tail cells). -/
theorem collect_tiles_characterization (W H : Nat) (used : List Nat)
    (tiles : List (Nat × Nat)) (start : Nat)
    (hlen : used.length = tiles.length) (hstart : start < tiles.length) :
    (collect_tiles W H used tiles start).1.length = tiles.length ∧
    (∀ j, j ≤ start →
      (collect_tiles W H used tiles start).1.getD j (0, 0) =
        tiles.getD j (0, 0)) ∧
    (∀ j, start < j → j < tiles.length →
      (collect_tiles W H used tiles start).1.getD j (0, 0) =
        gcCell W H (used.getD j 0, tiles.getD j (0, 0))) ∧
    (collect_tiles W H used tiles start).2.1 =
      (((used.drop (start + 1)).zip (tiles.drop (start + 1))).filter
        (gcFreedB W H)).map Prod.snd ∧
    ((collect_tiles W H used tiles start).2.2 = true ↔
      1 + ((used.drop (start + 1)).zip (tiles.drop (start + 1))).countP
          (gcPendingB H) ≤
        ((used.drop (start + 1)).zip (tiles.drop (start + 1))).countP
          (gcFreedB W H)) := by
  set z := (used.drop (start + 1)).zip (tiles.drop (start + 1)) with hz
  obtain ⟨hlen1, hget, hpush, hneed, hcoll⟩ := collectLoop_spec W H z
  have hzlen : z.length = tiles.length - (start + 1) := by
    rw [hz, List.length_zip, List.length_drop, List.length_drop, hlen,
      min_self]
  have htake : (tiles.take (start + 1)).length = start + 1 := by
    rw [List.length_take]
    omega
  have hdrop : ((tiles.drop (start + 1)).drop z.length).length = 0 := by
    rw [List.length_drop, List.length_drop]
    omega
  refine ⟨?_, ?_, ?_, ?_, ?_⟩
  · simp only [collect_tiles, ← hz, List.length_append]
    omega
  · intro j hj
    simp only [collect_tiles, ← hz]
    rw [List.getD_append _ _ _ _
        (by rw [List.length_append, htake]; omega),
      List.getD_append _ _ _ _ (by rw [htake]; omega)]
    exact getD_take_lt _ _ _ _ (by omega)
  · intro j hj1 hj2
    simp only [collect_tiles, ← hz]
    rw [List.getD_append _ _ _ _
        (by rw [List.length_append, htake, hlen1, hzlen]; omega),
      List.getD_append_right _ _ _ _ (by rw [htake]; omega), htake]
    rw [hget (j - (start + 1)) (by omega)]
    congr 1
    have h1 : z.getD (j - (start + 1)) (0, (0, 0)) =
        ((used.drop (start + 1)).getD (j - (start + 1)) 0,
         (tiles.drop (start + 1)).getD (j - (start + 1)) (0, 0)) := by
      rw [hz]
      exact getD_zip _ _ _ _ _
        (by rw [List.length_drop]; omega)
        (by rw [List.length_drop]; omega)
    rw [h1, getD_drop_add, getD_drop_add]
    congr 2 <;> omega
  · simpa only [collect_tiles, ← hz] using hpush
  · simp only [collect_tiles, ← hz, decide_eq_true_eq, hneed, hcoll]

/-- Witness for C7 at a concrete state: atlas 8×8, three cells, GC from
cell 0; cell 1 is unused with slot `(2, 2)` (freed), cell 2 is used and
UNLOADED (pending). -/
theorem collect_tiles_characterization_witness :
    (collect_tiles 8 8 [0, 0, 1] [(0, 0), (2, 2), (0, 8)] 0).1.length = 3 ∧
    (collect_tiles 8 8 [0, 0, 1] [(0, 0), (2, 2), (0, 8)] 0).1.getD 1 (0, 0) =
      gcCell 8 8 (0, (2, 2)) := by
  obtain ⟨h1, -, h3, -, -⟩ :=
    collect_tiles_characterization 8 8 [0, 0, 1] [(0, 0), (2, 2), (0, 8)] 0
      (by decide) (by decide)
  exact ⟨by rw [h1]; decide, by rw [h3 1 (by decide) (by decide)]; decide⟩

/-- Helper for C6: one admission from a state with an empty free list
and room in the current row takes the bump slot and advances (wrapping
when `x + R + R >= width`). -/
theorem upload_tile_empty_free (W H R x y : Nat) (hrow : ¬ H ≤ y + R) :
    upload_tile ⟨W, H, R, (x, y), []⟩ =
      some ((x, y), ⟨W, H, R,
        (if W ≤ x + R + R then (0, y + R) else (x + R, y)), []⟩) := by
  simp only [upload_tile, bumpAdvance]
  simp only [ne_eq, not_true_eq_false, dite_false, if_neg hrow]
  split
  · simp_all
  · simp_all

/-- Helper for C6: state after `i` admissions from a cleared atlas of
`c × r` tile columns/rows: the bump pointer is at
`((i % (c−1))·R, (i / (c−1))·R)` and the free list stays empty.  The
allocator skips the last tile column (the wrap test `x + R >= width` is
not strict) and refuses the last tile row (`y + R >= height`). -/
theorem uploadN_cleared_char (c r R : Nat) (hc : 2 ≤ c) (hr : 2 ≤ r)
    (hR : 1 ≤ R) :
    ∀ i, i ≤ (c - 1) * (r - 1) →
      uploadN i (atlasClear ⟨c * R, r * R, 0, (5, 5), [(1, 1)]⟩ R) =
        some ⟨c * R, r * R, R, ((i % (c - 1)) * R, (i / (c - 1)) * R), []⟩ := by
  intro i
  induction i with
  | zero =>
    intro hi
    simp [uploadN, atlasClear, Nat.zero_mod, Nat.zero_div]
  | succ i ih =>
    intro hi
    have hcap : i < (c - 1) * (r - 1) := by omega
    have hq : i / (c - 1) < r - 1 := Nat.div_lt_of_lt_mul (by omega)
    have hm : i % (c - 1) < c - 1 := Nat.mod_lt _ (by omega)
    have hiq : i = (c - 1) * (i / (c - 1)) + i % (c - 1) :=
      (Nat.div_add_mod i (c - 1)).symm
    have hnofail : ¬ r * R ≤ (i / (c - 1)) * R + R := by
      have h1 : (i / (c - 1)) * R + R = ((i / (c - 1)) + 1) * R := by ring
      have h2 : ((i / (c - 1)) + 1) * R < r * R :=
        (Nat.mul_lt_mul_right (by omega)).mpr (by omega)
      omega
    rw [uploadN, ih (by omega)]
    dsimp only
    rw [upload_tile_empty_free _ _ _ _ _ hnofail]
    simp only [Option.map_some']
    congr 1
    by_cases hwrap : i % (c - 1) = c - 2
    · have he : i + 1 = (c - 1) * (i / (c - 1) + 1) := by
        have h3 : i + 1 = (c - 1) * (i / (c - 1)) + (c - 1) := by omega
        rw [h3]
        ring
      have hx : c * R ≤ (i % (c - 1)) * R + R + R := by
        have h3 : (i % (c - 1)) * R + R + R = (i % (c - 1) + 2) * R := by
          ring
        have h4 : (c - 2) + 2 = c := by omega
        rw [h3, hwrap, h4]
      rw [if_pos hx, he, Nat.mul_mod_right,
        Nat.mul_div_cancel_left _ (show 0 < c - 1 by omega)]
      simp [Nat.succ_mul]
    · have hx : ¬ c * R ≤ (i % (c - 1)) * R + R + R := by
        have h3 : (i % (c - 1)) * R + R + R = (i % (c - 1) + 2) * R := by
          ring
        have h4 : (i % (c - 1) + 2) * R < c * R :=
          (Nat.mul_lt_mul_right (by omega)).mpr (by omega)
        omega
      have he : i + 1 = (i % (c - 1) + 1) + (c - 1) * (i / (c - 1)) := by
        omega
      have hmod1 : (i + 1) % (c - 1) = i % (c - 1) + 1 := by
        rw [he, Nat.add_mul_mod_self_left]
        exact Nat.mod_eq_of_lt (by omega)
      have hdiv1 : (i + 1) / (c - 1) = i / (c - 1) := by
        rw [he, Nat.add_mul_div_left _ _ (show 0 < c - 1 by omega),
          Nat.div_eq_of_lt (by omega)]
        omega
      rw [if_neg hx, hmod1, hdiv1]
      simp [Nat.succ_mul]

/-- **C6 (counterexample)** A 2048×2048 atlas with `R_lod = 1024` and
`K = 2` satisfies `K · R_lod² ≤ W · H`, but the second admission already
returns `None`: the bump allocator's non-strict wrap and row tests
(`x + R >= width`, `y + R >= height`) leave the last tile column and row
unusable, so "admitting K tiles with K·R² ≤ W·H succeeds" fails. -/
theorem atlas_capacity_counterexample :
    2 * (1024 * 1024) ≤ 2048 * 2048 ∧
    (uploadN 2 (atlasClear ⟨2048, 2048, 0, (5, 5), [(1, 1)]⟩ 1024)).isNone ∧
    (uploadN 1 (atlasClear ⟨2048, 2048, 0, (5, 5), [(1, 1)]⟩ 1024)).isSome := by
  refine ⟨by norm_num, ?_, ?_⟩ <;> decide

/-- **C6 (amended)** Atlas capacity: from a cleared `(cR) × (rR)` atlas
(`c, r ≥ 2`), admitting `K` tiles succeeds without growth iff
`K ≤ (c−1)·(r−1)` — the allocator leaves the last tile column and the
last tile row unused; the `(c−1)(r−1)+1`-st admission returns `None`;
and after a successful `recreate_atlas` the dimensions double (clamped
to the device limit) and the driver invalidates all prior slots,
resetting every residency entry to the new atlas's UNLOADED sentinel. -/
theorem atlas_capacity (c r R : Nat) (hc : 2 ≤ c) (hr : 2 ≤ r)
    (hR : 1 ≤ R) :
    (∀ K, K ≤ (c - 1) * (r - 1) →
      (uploadN K (atlasClear ⟨c * R, r * R, 0, (5, 5), [(1, 1)]⟩ R)).isSome) ∧
    uploadN ((c - 1) * (r - 1) + 1)
      (atlasClear ⟨c * R, r * R, 0, (5, 5), [(1, 1)]⟩ R) = none ∧
    (∀ maxDim s s', recreate_atlas maxDim s = some s' →
      s'.width = min (s.width * 2) maxDim ∧
      s'.height = min (s.height * 2) maxDim ∧
      ∀ ts : List (Nat × Nat), ∀ j, j < ts.length →
        (fillUnloaded ts s'.height).getD j (0, 0) = unloadedOf s'.height) := by
  refine ⟨?_, ?_, ?_⟩
  · intro K hK
    rw [uploadN_cleared_char c r R hc hr hR K hK]
    simp
  · set cap := (c - 1) * (r - 1) with hcap
    rw [uploadN, uploadN_cleared_char c r R hc hr hR cap le_rfl]
    have hdiv : cap / (c - 1) = r - 1 := by
      rw [hcap, Nat.mul_div_cancel_left _ (by omega : 0 < c - 1)]
    have hfail : r * R ≤ (cap / (c - 1)) * R + R := by
      rw [hdiv]
      calc r * R = ((r - 1) + 1) * R := by congr 1; omega
      _ = (r - 1) * R + R := by ring
      _ ≤ (r - 1) * R + R := le_rfl
    unfold upload_tile
    simp [hfail]
  · intro maxDim s s' h
    rw [recreate_atlas] at h
    split at h
    · exact absurd h (by simp)
    · obtain rfl : s' = _ := (Option.some.inj h).symm
      refine ⟨rfl, rfl, fun ts j hj => ?_⟩
      rw [fillUnloaded, List.getD_eq_getElem?_getD,
        List.getElem?_replicate]
      simp [hj]

/-- Witness for C6 (amended) at `c = r = 3`, `R = 1`: capacity is 4 and
the fifth admission fails. -/
theorem atlas_capacity_witness :
    (uploadN 4 (atlasClear ⟨3, 3, 0, (5, 5), [(1, 1)]⟩ 1)).isSome ∧
    uploadN 5 (atlasClear ⟨3, 3, 0, (5, 5), [(1, 1)]⟩ 1) = none :=
  ⟨(atlas_capacity 3 3 1 (by decide) (by decide) (by decide)).1 4 (by decide),
   (atlas_capacity 3 3 1 (by decide) (by decide) (by decide)).2.1⟩

/-- Helper: `getD` after `set` at the written index. -/
theorem getD_set_self {α : Type} (l : List α) (i : Nat) (a d : α)
    (h : i < l.length) : (l.set i a).getD i d = a := by
  rw [List.getD_eq_getElem?_getD, List.getElem?_set_self h, Option.getD_some]

/-- Helper: `getD` after `set` at a different index. -/
theorem getD_set_ne {α : Type} (l : List α) (i j : Nat) (a d : α)
    (h : i ≠ j) : (l.set i a).getD j d = l.getD j d := by
  rw [List.getD_eq_getElem?_getD, List.getElem?_set_ne h,
    ← List.getD_eq_getElem?_getD]

/-- Helper: row-major grid positions are injective when columns are in
range. -/
theorem grid_pos_injective {res x y x' y' : Nat} (hx : x < res)
    (hx' : x' < res) (h : y * res + x = y' * res + x') :
    y = y' ∧ x = x' := by
  rcases Nat.lt_trichotomy y y' with hlt | rfl | hgt
  · exfalso
    have h1 : (y + 1) * res ≤ y' * res := Nat.mul_le_mul_right _ hlt
    have h2 : (y + 1) * res = y * res + res := by ring
    omega
  · omega
  · exfalso
    have h1 : (y' + 1) * res ≤ y * res := Nat.mul_le_mul_right _ hgt
    have h2 : (y' + 1) * res = y' * res + res := by ring
    omega

/-- Helper for C4: the first-row loop touches exactly positions
`[2, 2+n)`, and each written position holds the linear recurrence over
the final values of its two left neighbours and its own original
residual. -/
theorem rowFold_spec (a : List Nat) :
    ∀ n, 1 + n < a.length →
      (((List.range' 2 n).foldl rowStep a).length = a.length) ∧
      (∀ i, i < 2 ∨ 2 + n ≤ i →
        ((List.range' 2 n).foldl rowStep a).getD i 0 = a.getD i 0) ∧
      (∀ x, 2 ≤ x → x < 2 + n →
        ((List.range' 2 n).foldl rowStep a).getD x 0 =
          linearFn (((List.range' 2 n).foldl rowStep a).getD (x - 2) 0)
            (((List.range' 2 n).foldl rowStep a).getD (x - 1) 0)
            (a.getD x 0)) := by
  intro n
  induction n with
  | zero =>
    intro hlen
    exact ⟨rfl, fun i _ => rfl, fun x hx1 hx2 => by omega⟩
  | succ n ih =>
    intro hlen
    obtain ⟨ihl, ihu, ihr⟩ := ih (by omega)
    rw [List.range'_concat]
    simp only [List.foldl_append, List.foldl_cons, List.foldl_nil, one_mul]
    have e2 : 2 + n - 2 = n := by omega
    have e1 : 2 + n - 1 = n + 1 := by omega
    rw [rowStep, e2, e1]
    refine ⟨?_, ?_, ?_⟩
    · rw [List.length_set]
      exact ihl
    · intro i hi
      rw [getD_set_ne _ _ _ _ _ (by omega)]
      exact ihu i (by omega)
    · intro x hx2 hxlt
      by_cases hx : x = 2 + n
      · subst hx
        rw [getD_set_self _ _ _ _ (by rw [ihl]; omega)]
        rw [e2, e1]
        rw [getD_set_ne _ _ _ _ _ (by omega),
          getD_set_ne _ _ _ _ _ (by omega)]
        rw [ihu (2 + n) (by omega)]
      · have hxlt' : x < 2 + n := by omega
        rw [getD_set_ne _ _ _ _ _ (by omega), ihr x hx2 hxlt',
          getD_set_ne _ _ _ _ _ (by omega),
          getD_set_ne _ _ _ _ _ (by omega)]

/-- Helper for C4: the first-column loop touches exactly positions
`{y·res : y ∈ [2, 2+n)}`, each holding the linear recurrence over the
final values of the two cells above and its own original residual. -/
theorem colFold_spec (res : Nat) (a : List Nat) (hres : 0 < res) :
    ∀ n, (1 + n) * res < a.length →
      (((List.range' 2 n).foldl (colStep res) a).length = a.length) ∧
      (∀ i, (∀ y, 2 ≤ y → y < 2 + n → i ≠ y * res) →
        ((List.range' 2 n).foldl (colStep res) a).getD i 0 = a.getD i 0) ∧
      (∀ y, 2 ≤ y → y < 2 + n →
        ((List.range' 2 n).foldl (colStep res) a).getD (y * res) 0 =
          linearFn
            (((List.range' 2 n).foldl (colStep res) a).getD ((y - 2) * res) 0)
            (((List.range' 2 n).foldl (colStep res) a).getD ((y - 1) * res) 0)
            (a.getD (y * res) 0)) := by
  intro n
  induction n with
  | zero =>
    intro hlen
    exact ⟨rfl, fun i _ => rfl, fun y hy1 hy2 => by omega⟩
  | succ n ih =>
    intro hlen
    have hmulne : ∀ y1 y2 : Nat, y1 ≠ y2 → y1 * res ≠ y2 * res :=
      fun y1 y2 hne h => hne (Nat.eq_of_mul_eq_mul_right hres h)
    have hlen2 : (2 + n) * res < a.length := by
      have h0 : (1 + (n + 1)) * res = (2 + n) * res := by ring
      omega
    have hstep : (1 + n) * res < a.length := by
      have h1 : (1 + n) * res ≤ (2 + n) * res :=
        Nat.mul_le_mul_right _ (by omega)
      omega
    obtain ⟨ihl, ihu, ihr⟩ := ih hstep
    rw [List.range'_concat]
    simp only [List.foldl_append, List.foldl_cons, List.foldl_nil, one_mul]
    have e2 : 2 + n - 2 = n := by omega
    have e1 : 2 + n - 1 = n + 1 := by omega
    rw [colStep, e2, e1]
    refine ⟨?_, ?_, ?_⟩
    · rw [List.length_set]
      exact ihl
    · intro i hi
      rw [getD_set_ne _ _ _ _ _ (Ne.symm (hi (2 + n) (by omega) (by omega)))]
      exact ihu i (fun y hy1 hy2 => hi y hy1 (by omega))
    · intro y hy2 hylt
      by_cases hy : y = 2 + n
      · subst hy
        rw [getD_set_self _ _ _ _ (by rw [ihl]; exact hlen2)]
        rw [e2, e1]
        rw [getD_set_ne _ _ _ _ _ (hmulne _ _ (by omega)),
          getD_set_ne _ _ _ _ _ (hmulne _ _ (by omega))]
        rw [ihu ((2 + n) * res) (fun y' hy1 hy2 => hmulne _ _ (by omega))]
      · rw [getD_set_ne _ _ _ _ _ (hmulne _ _ (by omega)),
          ihr y hy2 (by omega),
          getD_set_ne _ _ _ _ _ (hmulne _ _ (by omega)),
          getD_set_ne _ _ _ _ _ (hmulne _ _ (by omega))]

/-- Helper: distinct grid coordinates give distinct row-major
positions. -/
theorem grid_pos_ne {res x y x' y' : Nat} (hx : x < res) (hx' : x' < res)
    (hne : x ≠ x' ∨ y ≠ y') : y * res + x ≠ y' * res + x' := by
  intro h
  obtain ⟨h1, h2⟩ := grid_pos_injective hx hx' h
  rcases hne with hne | hne <;> omega

/-- Helper for C4: the interior loop at column `x` (`1 ≤ x < res`)
touches exactly positions `{y·res+x : y ∈ [1, 1+n)}`, each holding the
plane recurrence over the final values of its left, top, and top-left
neighbours and its own original residual. -/
theorem planeFold_spec (res x : Nat) (a : List Nat) (hx1 : 1 ≤ x)
    (hxr : x < res) :
    ∀ n, n * res + x < a.length →
      (((List.range' 1 n).foldl (planeStep res x) a).length = a.length) ∧
      (∀ i, (∀ y, 1 ≤ y → y < 1 + n → i ≠ y * res + x) →
        ((List.range' 1 n).foldl (planeStep res x) a).getD i 0 =
          a.getD i 0) ∧
      (∀ y, 1 ≤ y → y < 1 + n →
        ((List.range' 1 n).foldl (planeStep res x) a).getD (y * res + x) 0 =
          planeFn
            (((List.range' 1 n).foldl (planeStep res x) a).getD
              (y * res + x - 1) 0)
            (((List.range' 1 n).foldl (planeStep res x) a).getD
              ((y - 1) * res + x) 0)
            (((List.range' 1 n).foldl (planeStep res x) a).getD
              ((y - 1) * res + x - 1) 0)
            (a.getD (y * res + x) 0)) := by
  intro n
  induction n with
  | zero =>
    intro hlen
    exact ⟨rfl, fun i _ => rfl, fun y hy1 hy2 => by omega⟩
  | succ n ih =>
    intro hlen
    have hlen2 : (1 + n) * res + x < a.length := by
      have h0 : (n + 1) * res = (1 + n) * res := by ring
      omega
    have hstep : n * res + x < a.length := by
      have h1 : n * res ≤ (1 + n) * res := Nat.mul_le_mul_right _ (by omega)
      omega
    obtain ⟨ihl, ihu, ihr⟩ := ih hstep
    rw [List.range'_concat]
    simp only [List.foldl_append, List.foldl_cons, List.foldl_nil, one_mul]
    have e1 : 1 + n - 1 = n := by omega
    rw [planeStep, e1]
    refine ⟨?_, ?_, ?_⟩
    · rw [List.length_set]
      exact ihl
    · intro i hi
      rw [getD_set_ne _ _ _ _ _ (Ne.symm (hi (1 + n) (by omega) (by omega)))]
      exact ihu i (fun y hy1 hy2 => hi y hy1 (by omega))
    · intro y hy1 hylt
      by_cases hy : y = 1 + n
      · subst hy
        rw [getD_set_self _ _ _ _ (by rw [ihl]; exact hlen2)]
        rw [e1]
        rw [getD_set_ne _ _ _ _ _ (by omega),
          getD_set_ne _ _ _ _ _
            (grid_pos_ne hxr hxr (Or.inr (by omega))),
          getD_set_ne _ _ _ _ _ (fun h => by
            have h' : (1 + n) * res + x = n * res + (x - 1) := by omega
            obtain ⟨h1, h2⟩ :=
              grid_pos_injective hxr (show x - 1 < res by omega) h'
            omega)]
        rw [ihu ((1 + n) * res + x) (fun y' hy1 hy2 =>
          grid_pos_ne hxr hxr (Or.inr (by omega)))]
      · rw [getD_set_ne _ _ _ _ _
            (grid_pos_ne hxr hxr (Or.inr (by omega))),
          ihr y hy1 (by omega),
          getD_set_ne _ _ _ _ _ (fun h => by
            have h' : (1 + n) * res + x = y * res + (x - 1) := by omega
            obtain ⟨h1, h2⟩ :=
              grid_pos_injective hxr (show x - 1 < res by omega) h'
            omega),
          getD_set_ne _ _ _ _ _
            (grid_pos_ne hxr hxr (Or.inr (by omega))),
          getD_set_ne _ _ _ _ _ (fun h => by
            have h' : (1 + n) * res + x = (y - 1) * res + (x - 1) := by
              omega
            obtain ⟨h1, h2⟩ :=
              grid_pos_injective hxr (show x - 1 < res by omega) h'
            omega)]

/-- Helper for C4: the interior double loop over columns `[1, 1+m)`
touches exactly the interior cells of those columns, each holding the
plane recurrence over final neighbour values and its own original
residual. -/
theorem outerFold_spec (res : Nat) (a : List Nat) (hres : 2 ≤ res)
    (hlen : a.length = res * res) :
    ∀ m, m < res →
      (((List.range' 1 m).foldl (fun b x =>
        (List.range' 1 (res - 1)).foldl (planeStep res x) b) a).length =
          a.length) ∧
      (∀ i, (∀ x y, 1 ≤ x → x < 1 + m → 1 ≤ y → y < res →
          i ≠ y * res + x) →
        ((List.range' 1 m).foldl (fun b x =>
          (List.range' 1 (res - 1)).foldl (planeStep res x) b) a).getD i 0 =
            a.getD i 0) ∧
      (∀ x y, 1 ≤ x → x < 1 + m → 1 ≤ y → y < res →
        ((List.range' 1 m).foldl (fun b x =>
          (List.range' 1 (res - 1)).foldl (planeStep res x) b) a).getD
            (y * res + x) 0 =
          planeFn
            (((List.range' 1 m).foldl (fun b x =>
              (List.range' 1 (res - 1)).foldl (planeStep res x) b) a).getD
                (y * res + x - 1) 0)
            (((List.range' 1 m).foldl (fun b x =>
              (List.range' 1 (res - 1)).foldl (planeStep res x) b) a).getD
                ((y - 1) * res + x) 0)
            (((List.range' 1 m).foldl (fun b x =>
              (List.range' 1 (res - 1)).foldl (planeStep res x) b) a).getD
                ((y - 1) * res + x - 1) 0)
            (a.getD (y * res + x) 0)) := by
  intro m
  induction m with
  | zero =>
    intro hm
    exact ⟨rfl, fun i _ => rfl, fun x y hx1 hx2 => by omega⟩
  | succ m ih =>
    intro hm
    obtain ⟨ihl, ihu, ihr⟩ := ih (by omega)
    rw [List.range'_concat]
    simp only [List.foldl_append, List.foldl_cons, List.foldl_nil, one_mul]
    have hx01 : 1 ≤ 1 + m := by omega
    have hx0r : 1 + m < res := by omega
    have hplen : (res - 1) * res + (1 + m) <
        ((List.range' 1 m).foldl (fun b x =>
          (List.range' 1 (res - 1)).foldl (planeStep res x) b) a).length := by
      rw [ihl, hlen]
      have e : res - 1 + 1 = res := by omega
      have hr : (res - 1) * res + res = res * res := by
        calc (res - 1) * res + res = (res - 1 + 1) * res := by ring
        _ = res * res := by rw [e]
      omega
    obtain ⟨pl, pu, pr⟩ :=
      planeFold_spec res (1 + m) _ hx01 hx0r (res - 1) hplen
    refine ⟨?_, ?_, ?_⟩
    · rw [pl, ihl]
    · intro i hi
      rw [pu i (fun y hy1 hy2 => hi (1 + m) y hx01 (by omega) hy1 (by omega))]
      exact ihu i (fun x y h1 h2 h3 h4 => hi x y h1 (by omega) h3 h4)
    · intro x y hx1 hxlt hy1 hylt
      by_cases hx : x = 1 + m
      · subst hx
        rw [pr y hy1 (by omega)]
        rw [ihu ((y * res + (1 + m))) (fun x' y' h1 h2 h3 h4 =>
          grid_pos_ne hx0r (by omega) (Or.inl (by omega)))]
      · have hxres : x < res := by omega
        have hcol : ∀ y' x', x' < res → x' ≠ 1 + m →
            (∀ y2, 1 ≤ y2 → y2 < 1 + (res - 1) →
              y' * res + x' ≠ y2 * res + (1 + m)) :=
          fun y' x' hx'r hx'ne y2 h1 h2 =>
            grid_pos_ne hx'r hx0r (Or.inl hx'ne)
        have hleft : y * res + x - 1 = y * res + (x - 1) := by omega
        have htl : (y - 1) * res + x - 1 = (y - 1) * res + (x - 1) := by
          omega
        rw [pu (y * res + x) (hcol y x hxres (by omega)),
          ihr x y hx1 (by omega) hy1 hylt,
          hleft, pu (y * res + (x - 1)) (hcol y (x - 1) (by omega) (by omega)),
          pu ((y - 1) * res + x) (hcol (y - 1) x hxres (by omega)),
          htl,
          pu ((y - 1) * res + (x - 1))
            (hcol (y - 1) (x - 1) (by omega) (by omega))]

/-- **C4** Un-predict correctness: for every residual array of an
`res × res` tile (`res ≥ 2`), the decoder's un-predict stage inverts
prediction with the spec's formulas — interior pixels (x ≥ 1, y ≥ 1)
use the plane predictor `above + (left − top_left)`, first-row pixels
(y = 0, x ≥ 2) and first-column pixels (x = 0, y ≥ 2) use the linear
predictor `2·current − previous`, `(0,1)` and `(1,0)` use a delta from
`(0,0)` — each adding back the residual minus the constant bias 7000,
while every water-sentinel pixel (stored value 0) passes through
unchanged. -/
theorem unpredict_inverts_prediction (res : Nat) (v : List Nat)
    (hres : 2 ≤ res) (hlen : v.length = res * res) :
    ∀ x y, x < res → y < res → unpredictSpecAt res v (unpredict res v) x y := by
  have h2res : 2 * res ≤ res * res := Nat.mul_le_mul_right res hres
  have hsq : (res - 1) * res + res = res * res := by
    have e : res - 1 + 1 = res := by omega
    calc (res - 1) * res + res = (res - 1 + 1) * res := by ring
    _ = res * res := by rw [e]
  have hyres : ∀ y : Nat, 1 ≤ y → res ≤ y * res := by
    intro y hy
    have := Nat.mul_le_mul_right res hy
    omega
  have h2yres : ∀ y : Nat, 2 ≤ y → 2 * res ≤ y * res := by
    intro y hy
    have := Nat.mul_le_mul_right res hy
    omega
  set a1 := v.set 1 (deltaFn (v.getD 0 0) (v.getD 1 0)) with ha1
  set a2 := a1.set res (deltaFn (a1.getD 0 0) (a1.getD res 0)) with ha2
  set a3 := (List.range' 2 (res - 2)).foldl rowStep a2 with ha3
  set a4 := (List.range' 2 (res - 2)).foldl (colStep res) a3 with ha4
  set F := (List.range' 1 (res - 1)).foldl (fun b x =>
    (List.range' 1 (res - 1)).foldl (planeStep res x) b) a4 with hFdef
  have hFu : unpredict res v = F := rfl
  have hL1 : a1.length = res * res := by rw [ha1, List.length_set, hlen]
  have hL2 : a2.length = res * res := by rw [ha2, List.length_set, hL1]
  obtain ⟨hl3, hu3, hr3⟩ := rowFold_spec a2 (res - 2) (by omega)
  rw [← ha3] at hl3 hu3 hr3
  have hL3 : a3.length = res * res := by rw [hl3, hL2]
  obtain ⟨hl4, hu4, hr4⟩ := colFold_spec res a3 (by omega) (res - 2) (by
    have e : 1 + (res - 2) = res - 1 := by omega
    rw [e, hL3]
    omega)
  rw [← ha4] at hl4 hu4 hr4
  have hL4 : a4.length = res * res := by rw [hl4, hL3]
  obtain ⟨hl5, hu5, hr5⟩ := outerFold_spec res a4 hres hL4 (res - 1) (by omega)
  rw [← hFdef] at hl5 hu5 hr5
  -- transport through untouched stages
  have hFeq : ∀ i, (∀ x' y', 1 ≤ x' → x' < res → 1 ≤ y' → y' < res →
      i ≠ y' * res + x') → F.getD i 0 = a4.getD i 0 := by
    intro i hi
    exact hu5 i (fun x' y' h1 h2 h3 h4 => hi x' y' h1 (by omega) h3 h4)
  have ha4eq : ∀ i, (∀ y', 2 ≤ y' → y' < res → i ≠ y' * res) →
      a4.getD i 0 = a3.getD i 0 := by
    intro i hi
    exact hu4 i (fun y' h1 h2 => hi y' h1 (by omega))
  have ha3eq : ∀ i, i < 2 ∨ res ≤ i → a3.getD i 0 = a2.getD i 0 := by
    intro i hi
    exact hu3 i (by omega)
  -- final values at the five position classes
  have f0 : F.getD 0 0 = v.getD 0 0 := by
    rw [hFeq 0 (fun x' y' h1 h2 h3 h4 => by
        have := hyres y' h3
        omega),
      ha4eq 0 (fun y' h1 h2 => by
        have := h2yres y' h1
        omega),
      ha3eq 0 (by omega), ha2, getD_set_ne _ _ _ _ _ (by omega),
      ha1, getD_set_ne _ _ _ _ _ (by omega)]
  have f1 : F.getD 1 0 = deltaFn (v.getD 0 0) (v.getD 1 0) := by
    rw [hFeq 1 (fun x' y' h1 h2 h3 h4 => by
        have := hyres y' h3
        omega),
      ha4eq 1 (fun y' h1 h2 => by
        have := h2yres y' h1
        omega),
      ha3eq 1 (by omega), ha2, getD_set_ne _ _ _ _ _ (by omega),
      ha1, getD_set_self _ _ _ _ (by rw [hlen]; omega)]
  have fres : F.getD res 0 = deltaFn (v.getD 0 0) (v.getD res 0) := by
    have h1 : F.getD res 0 = a2.getD res 0 := by
      rw [hFeq res (fun x' y' h1 h2 h3 h4 h => by
          have h' : 1 * res + 0 = y' * res + x' := by omega
          obtain ⟨e1, e2⟩ := grid_pos_injective (by omega) h2 h'
          omega),
        ha4eq res (fun y' h1 h2 h => by
          have := h2yres y' h1
          omega),
        ha3eq res (by omega)]
    rw [h1, ha2, getD_set_self _ _ _ _ (by rw [hL1]; omega),
      ha1, getD_set_ne _ _ _ _ _ (by omega),
      getD_set_ne _ _ _ _ _ (by omega)]
  have frow : ∀ x, 2 ≤ x → x < res →
      F.getD x 0 = linearFn (F.getD (x - 2) 0) (F.getD (x - 1) 0)
        (v.getD x 0) := by
    intro x hx2 hxr
    have hsmall : ∀ j, j < res → F.getD j 0 = a3.getD j 0 := by
      intro j hj
      rw [hFeq j (fun x' y' h1 h2 h3 h4 => by
          have := hyres y' h3
          omega),
        ha4eq j (fun y' h1 h2 => by
          have := h2yres y' h1
          omega)]
    rw [hsmall x hxr, hr3 x hx2 (by omega),
      ← hsmall (x - 2) (by omega), ← hsmall (x - 1) (by omega),
      ha2, getD_set_ne _ _ _ _ _ (by omega),
      ha1, getD_set_ne _ _ _ _ _ (by omega)]
  have fcol : ∀ y, 2 ≤ y → y < res →
      F.getD (y * res) 0 = linearFn (F.getD ((y - 2) * res) 0)
        (F.getD ((y - 1) * res) 0) (v.getD (y * res) 0) := by
    intro y hy2 hyr
    have hcol0 : ∀ j, j < res → F.getD (j * res) 0 = a4.getD (j * res) 0 := by
      intro j hj
      rw [hFeq (j * res) (fun x' y' h1 h2 h3 h4 h => by
        have h' : j * res + 0 = y' * res + x' := by omega
        obtain ⟨e1, e2⟩ := grid_pos_injective (by omega) h2 h'
        omega)]
    have hv : a3.getD (y * res) 0 = v.getD (y * res) 0 := by
      have hge := h2yres y hy2
      rw [ha3eq (y * res) (by omega),
        ha2, getD_set_ne _ _ _ _ _ (by omega),
        ha1, getD_set_ne _ _ _ _ _ (by omega)]
    rw [hcol0 y hyr, hr4 y hy2 (by omega), hv,
      ← hcol0 (y - 2) (by omega), ← hcol0 (y - 1) (by omega)]
  have finterior : ∀ x y, 1 ≤ x → x < res → 1 ≤ y → y < res →
      F.getD (y * res + x) 0 =
        planeFn (F.getD (y * res + x - 1) 0)
          (F.getD ((y - 1) * res + x) 0)
          (F.getD ((y - 1) * res + x - 1) 0)
          (v.getD (y * res + x) 0) := by
    intro x y hx1 hxr hy1 hyr
    have hvi : a4.getD (y * res + x) 0 = v.getD (y * res + x) 0 := by
      have hge := hyres y hy1
      rw [ha4eq (y * res + x) (fun y' h1 h2 h => by
          have h' : y * res + x = y' * res + 0 := by omega
          obtain ⟨e1, e2⟩ := grid_pos_injective hxr (by omega) h'
          omega),
        ha3eq (y * res + x) (by omega),
        ha2, getD_set_ne _ _ _ _ _ (by omega),
        ha1, getD_set_ne _ _ _ _ _ (by omega)]
    rw [hr5 x y hx1 (by omega) hy1 hyr, hvi]
  intro x y hx hy
  rw [hFu]
  by_cases hx0 : x = 0
  · subst hx0
    by_cases hy0 : y = 0
    · subst hy0
      unfold unpredictSpecAt
      dsimp only
      rw [show (0 : Nat) * res + 0 = 0 by omega]
      by_cases hw : v.getD 0 0 = 0
      · rw [if_pos hw, f0, hw]
      · rw [if_neg hw, if_pos (show (0 : Nat) = 0 ∧ (0 : Nat) = 0 from ⟨rfl, rfl⟩)]
        exact f0
    · by_cases hy1 : y = 1
      · subst hy1
        unfold unpredictSpecAt
        dsimp only
        rw [show (1 : Nat) * res + 0 = res by omega]
        by_cases hw : v.getD res 0 = 0
        · rw [if_pos hw, fres, deltaFn, if_pos hw]
        · rw [if_neg hw,
            if_neg (show ¬((0 : Nat) = 0 ∧ (1 : Nat) = 0) by omega),
            if_pos (show ((0 : Nat) = 1 ∧ (1 : Nat) = 0) ∨
              ((0 : Nat) = 0 ∧ (1 : Nat) = 1) from Or.inr ⟨rfl, rfl⟩),
            fres, f0, deltaFn, if_neg hw]
      · have hy2 : 2 ≤ y := by omega
        unfold unpredictSpecAt
        dsimp only
        rw [show y * res + 0 = y * res by omega]
        by_cases hw : v.getD (y * res) 0 = 0
        · rw [if_pos hw, fcol y hy2 hy, linearFn, if_pos hw]
        · rw [if_neg hw,
            if_neg (show ¬((0 : Nat) = 0 ∧ y = 0) by omega),
            if_neg (show ¬(((0 : Nat) = 1 ∧ y = 0) ∨
              ((0 : Nat) = 0 ∧ y = 1)) by omega),
            if_neg hy0, if_pos (rfl : (0 : Nat) = 0),
            fcol y hy2 hy, linearFn, if_neg hw]
          congr 1
          ring
  · by_cases hy0 : y = 0
    · subst hy0
      by_cases hx1 : x = 1
      · subst hx1
        unfold unpredictSpecAt
        dsimp only
        rw [show (0 : Nat) * res + 1 = 1 by omega]
        by_cases hw : v.getD 1 0 = 0
        · rw [if_pos hw, f1, deltaFn, if_pos hw]
        · rw [if_neg hw,
            if_neg (show ¬((1 : Nat) = 0 ∧ (0 : Nat) = 0) by omega),
            if_pos (show ((1 : Nat) = 1 ∧ (0 : Nat) = 0) ∨
              ((1 : Nat) = 0 ∧ (0 : Nat) = 1) from Or.inl ⟨rfl, rfl⟩),
            f1, f0, deltaFn, if_neg hw]
      · have hx2 : 2 ≤ x := by omega
        unfold unpredictSpecAt
        dsimp only
        rw [show (0 : Nat) * res + x = x by omega]
        by_cases hw : v.getD x 0 = 0
        · rw [if_pos hw, frow x hx2 hx, linearFn, if_pos hw]
        · rw [if_neg hw,
            if_neg (show ¬(x = 0 ∧ (0 : Nat) = 0) by omega),
            if_neg (show ¬((x = 1 ∧ (0 : Nat) = 0) ∨
              (x = 0 ∧ (0 : Nat) = 1)) by omega),
            if_pos (rfl : (0 : Nat) = 0),
            frow x hx2 hx, linearFn, if_neg hw]
          congr 1
          ring
    · have hx1 : 1 ≤ x := by omega
      have hy1 : 1 ≤ y := by omega
      unfold unpredictSpecAt
      dsimp only
      by_cases hw : v.getD (y * res + x) 0 = 0
      · rw [if_pos hw, finterior x y hx1 hx hy1 hy, planeFn, if_pos hw]
      · rw [if_neg hw,
          if_neg (show ¬(x = 0 ∧ y = 0) by omega),
          if_neg (show ¬((x = 1 ∧ y = 0) ∨ (x = 0 ∧ y = 1)) by omega),
          if_neg hy0, if_neg hx0,
          finterior x y hx1 hx hy1 hy, planeFn, if_neg hw]

/-- Witness for C4 at `res = 2` on a concrete residual array. -/
theorem unpredict_inverts_prediction_witness :
    unpredictSpecAt 2 [100, 7001, 7002, 7003]
      (unpredict 2 [100, 7001, 7002, 7003]) 1 1 :=
  unpredict_inverts_prediction 2 [100, 7001, 7002, 7003] (by decide)
    (by decide) 1 1 (by decide) (by decide)

/-- **C9 (counterexample)** A malformed tile payload does not surface a
structured per-tile error: with an identity decompressor, a 12-byte
payload for a 2×2 tile (valid lengths are 10, 7, or a palette form)
drives `unpalette` into `unreachable!` — the embedded `get_tile` reports
a panic, not a `CorruptResidual`-style error value (no
`CorruptFrame`/`CorruptPalette`/`CorruptResidual` type exists in the
code). -/
theorem ver6_malformed_panics :
    get_tile_v6 (fun l => .ok l) [518421]
      [7, 0, 0, 0, 0, 0, 0, 0, 0, 0, 0, 0] 518421 50 2 0 =
      some .panicked ∧
    get_tile_v6 (fun l => .ok l) [518421]
      [0, 5, 0, 9, 0, 1, 0, 0] 518421 50 2 0 = some .panicked := by
  constructor <;> decide

/-- **C9 (amended)** Per-tile error behaviour of the version-6 decoder:
(1) a decompressed payload whose length matches no recognised form makes
`unpalette` panic (`unreachable!`), and (2) a palette index at or beyond
the palette length panics (index out of bounds) — neither is a
structured error; (3) a decompressor error on a tile's frame is
surfaced as that tile's own error result; and (4) `get_tile` for cell
`i` depends only on cell `i`'s offset-table entry (and the shared
payload bytes), so failures on other cells leave the container usable. -/
theorem ver6_error_containment :
    (∀ res d, d.length ≠ res * res * 2 + 2 → d.length ≠ res * res + 3 →
      (d.length < res * res + 2 ∨
        (d.length - (res * res + 2) ≠ (d.getD 0 0 + 1) * 2 ∧
         d.length - (res * res + 2) ≠ (d.getD 0 0 + 1) + 1)) →
      unpalette res d = none) ∧
    (∀ palette l, (∃ x ∈ l, palette.length ≤ x) →
      indexMap palette l = none) ∧
    (∀ (D : List Nat → Except Unit (List Nat)) tm data doff hres res i,
      tm.getD i 0 ≠ 0 →
      D (data.drop (tm.getD i 0 - doff)) = .error () →
      get_tile_v6 D tm data doff hres res i = some .ioErr) ∧
    (∀ (D : List Nat → Except Unit (List Nat)) tm tm' data doff hres res i,
      tm.getD i 0 = tm'.getD i 0 →
      get_tile_v6 D tm data doff hres res i =
        get_tile_v6 D tm' data doff hres res i) := by
  refine ⟨?_, ?_, ?_, ?_⟩
  · intro res d h1 h2 h3
    rw [unpalette]
    rcases h3 with h3 | ⟨h3, h4⟩
    · simp only [if_neg h1, if_neg h2, if_pos h3]
    · by_cases h5 : d.length < res * res + 2
      · simp only [if_neg h1, if_neg h2, if_pos h5]
      · simp only [if_neg h1, if_neg h2, if_neg h5, if_neg h3, if_neg h4]
  · intro palette l h
    induction l with
    | nil => simp at h
    | cons x rest ih =>
      rw [indexMap]
      rcases h with ⟨y, hy, hge⟩
      rcases List.mem_cons.mp hy with rfl | hmem
      · rw [if_neg (by omega)]
      · by_cases hx : x < palette.length
        · rw [if_pos hx, ih ⟨y, hmem, hge⟩]
          rfl
        · rw [if_neg hx]
  · intro D tm data doff hres res i hnz herr
    rw [get_tile_v6]
    simp only [if_neg hnz, herr]
  · intro D tm tm' data doff hres res i heq
    rw [get_tile_v6, get_tile_v6, heq]

/-- Witness for C9 (amended): concrete instances of each conjunct — a
5-byte payload for a 2×2 tile panics; index 3 overruns a 2-entry
palette; a decompressor error surfaces as the tile's `ioErr`; and the
result at cell 0 is unchanged when another cell's entry differs. -/
theorem ver6_error_containment_witness :
    unpalette 2 [9, 9, 9, 9, 9] = none ∧
    indexMap [5, 6] [0, 3] = none ∧
    get_tile_v6 (fun _ => .error ()) [4] [1, 2, 3] 4 1 2 0 =
      some .ioErr ∧
    get_tile_v6 (fun l => .ok l) [4, 0] [1, 2, 3] 4 1 2 0 =
      get_tile_v6 (fun l => .ok l) [4, 9] [1, 2, 3] 4 1 2 0 :=
  ⟨ver6_error_containment.1 2 [9, 9, 9, 9, 9] (by decide) (by decide)
      (Or.inl (by decide)),
   ver6_error_containment.2.1 [5, 6] [0, 3] ⟨3, by decide, by decide⟩,
   ver6_error_containment.2.2.1 (fun _ => .error ()) [4] [1, 2, 3] 4 1 2 0
      (by decide) rfl,
   ver6_error_containment.2.2.2 (fun l => .ok l) [4, 0] [4, 9] [1, 2, 3]
      4 1 2 0 (by decide)⟩

/-- Helper: uniqueness of division with remainder. -/
theorem divmod_unique (A B q : Nat) (hq : 0 < q) (hB : B < q) :
    (A * q + B) / q = A ∧ (A * q + B) % q = B := by
  constructor
  · rw [show A * q + B = B + q * A by ring, Nat.add_mul_div_left _ _ hq,
      Nat.div_eq_of_lt hB]
    omega
  · rw [show A * q + B = B + q * A by ring, Nat.add_mul_mod_self_left,
      Nat.mod_eq_of_lt hB]

/-- Helper: `invTilePos` is a left inverse of `tilePos` on a
`(t·m) × (t·m)` grid with `t × t` sub-tiles. -/
theorem invTilePos_tilePos (t m : Nat) (ht : 0 < t) (hm : 0 < m) :
    ∀ k, k < (t * m) * (t * m) →
      invTilePos (t * m) t (tilePos (t * m) t k) = k := by
  intro k hk
  have hmm : (t * m) / t = m := by
    rw [Nat.mul_div_cancel_left _ ht]
  set i := k / (t * t) with hi
  set j := k % (t * t) with hj
  have h0 := Nat.div_add_mod k (t * t)
  have h1 : t * t * (k / (t * t)) = k / (t * t) * (t * t) := by ring
  have hij : k = i * (t * t) + j := by
    rw [hi, hj]
    omega
  set ty := i / m with hty
  set tx := i % m with htx
  set py := j / t with hpy
  set px := j % t with hpx
  have h2 := Nat.div_add_mod i m
  have h3 : m * (i / m) = i / m * m := by ring
  have h4 := Nat.div_add_mod j t
  have h5 : t * (j / t) = j / t * t := by ring
  have htx_lt : tx < m := Nat.mod_lt _ hm
  have hpx_lt : px < t := Nat.mod_lt _ ht
  have hpy_lt : py < t := by
    have hjt : j < t * t := Nat.mod_lt _ (by positivity)
    rw [hpy]
    exact Nat.div_lt_of_lt_mul hjt
  have hpos : tilePos (t * m) t k = (ty * t + py) * (t * m) + (tx * t + px) := by
    rw [tilePos, hmm]
  have hXlt : tx * t + px < t * m := by
    have hc1 : tx * t + px + 1 ≤ (tx + 1) * t := by
      have : (tx + 1) * t = tx * t + t := by ring
      omega
    have hc2 : (tx + 1) * t ≤ m * t := Nat.mul_le_mul_right _ (by omega)
    have hc3 : m * t = t * m := by ring
    omega
  obtain ⟨hdiv, hmod⟩ := divmod_unique (ty * t + py) (tx * t + px) (t * m)
    (by positivity) hXlt
  obtain ⟨hdiv2, hmod2⟩ := divmod_unique ty py t ht hpy_lt
  obtain ⟨hdiv3, hmod3⟩ := divmod_unique tx px t ht hpx_lt
  rw [invTilePos, hpos, hdiv, hmod, hmm, hdiv2, hmod2, hdiv3, hmod3]
  have hi_eq : ty * m + tx = i := by
    rw [hty, htx]
    omega
  have hj_eq : py * t + px = j := by
    rw [hpy, hpx]
    omega
  rw [hi_eq, hj_eq]
  omega

/-- Helper: `tilePos` stays inside the grid. -/
theorem tilePos_lt (t m : Nat) (ht : 0 < t) (hm : 0 < m) :
    ∀ k, k < (t * m) * (t * m) → tilePos (t * m) t k < (t * m) * (t * m) := by
  intro k hk
  have hmm : (t * m) / t = m := Nat.mul_div_cancel_left _ ht
  have hassoc : (t * m) * (t * m) = (t * t) * (m * m) := by ring
  have hi_lt : k / (t * t) < m * m := Nat.div_lt_of_lt_mul (by omega)
  have hty_lt : k / (t * t) / m < m := Nat.div_lt_of_lt_mul hi_lt
  have hpy_lt : k % (t * t) / t < t :=
    Nat.div_lt_of_lt_mul (Nat.mod_lt _ (by positivity))
  have htx_lt : k / (t * t) % m < m := Nat.mod_lt _ hm
  have hpx_lt : k % (t * t) % t < t := Nat.mod_lt _ ht
  rw [tilePos, hmm]
  have hY : k / (t * t) / m * t + k % (t * t) / t + 1 ≤ t * m := by
    have hc1 : (k / (t * t) / m + 1) * t ≤ m * t :=
      Nat.mul_le_mul_right _ (by omega)
    have hc2 : (k / (t * t) / m + 1) * t = k / (t * t) / m * t + t := by ring
    have hc3 : m * t = t * m := by ring
    omega
  have hX : k / (t * t) % m * t + k % (t * t) % t < t * m := by
    have hc1 : (k / (t * t) % m + 1) * t ≤ m * t :=
      Nat.mul_le_mul_right _ (by omega)
    have hc2 : (k / (t * t) % m + 1) * t = k / (t * t) % m * t + t := by ring
    have hc3 : m * t = t * m := by ring
    omega
  have hfin : (k / (t * t) / m * t + k % (t * t) / t + 1) * (t * m) ≤
      (t * m) * (t * m) := Nat.mul_le_mul_right _ hY
  have hexp : (k / (t * t) / m * t + k % (t * t) / t + 1) * (t * m) =
      (k / (t * t) / m * t + k % (t * t) / t) * (t * m) + t * m := by ring
  omega

/-- Helper: `invTilePos` is a right inverse of `tilePos`. -/
theorem tilePos_invTilePos (t m : Nat) (ht : 0 < t) (hm : 0 < m) :
    ∀ p, p < (t * m) * (t * m) →
      tilePos (t * m) t (invTilePos (t * m) t p) = p := by
  intro p hp
  have hmm : (t * m) / t = m := Nat.mul_div_cancel_left _ ht
  set Y := p / (t * m) with hY
  set X := p % (t * m) with hX
  have hX_lt : X < t * m := Nat.mod_lt _ (by positivity)
  have hY_lt : Y < t * m := by
    rw [hY]
    exact Nat.div_lt_of_lt_mul hp
  set ty := Y / t with hty
  set py := Y % t with hpy
  set tx := X / t with htx
  set px := X % t with hpx
  have hpy_lt : py < t := Nat.mod_lt _ ht
  have hpx_lt : px < t := Nat.mod_lt _ ht
  have htx_lt : tx < m := by
    rw [htx]
    exact Nat.div_lt_of_lt_mul hX_lt
  have hinv : invTilePos (t * m) t p = (ty * m + tx) * (t * t) + (py * t + px) := by
    rw [invTilePos, hmm]
  have hBlt : py * t + px < t * t := by
    have hc1 : (py + 1) * t ≤ t * t := by
      have := Nat.mul_le_mul_right t (show py + 1 ≤ t by omega)
      omega
    have hc2 : (py + 1) * t = py * t + t := by ring
    omega
  obtain ⟨hdiv, hmod⟩ := divmod_unique (ty * m + tx) (py * t + px) (t * t)
    (by positivity) hBlt
  obtain ⟨hdiv2, hmod2⟩ := divmod_unique ty tx m hm htx_lt
  obtain ⟨hdiv3, hmod3⟩ := divmod_unique py px t ht hpx_lt
  rw [tilePos, hinv, hdiv, hmod, hmm, hdiv2, hmod2, hdiv3, hmod3]
  have hYd := Nat.div_add_mod Y t
  have hYb : t * (Y / t) = Y / t * t := by ring
  have hY_eq : ty * t + py = Y := by
    rw [hty, hpy]
    omega
  have hXd := Nat.div_add_mod X t
  have hXb : t * (X / t) = X / t * t := by ring
  have hX_eq : tx * t + px = X := by
    rw [htx, hpx]
    omega
  have hpd := Nat.div_add_mod p (t * m)
  have hpb : t * m * (p / (t * m)) = p / (t * m) * (t * m) := by ring
  rw [hY_eq, hX_eq]
  rw [hY, hX]
  omega

/-- Helper: `invTilePos` stays inside the grid. -/
theorem invTilePos_lt (t m : Nat) (ht : 0 < t) (hm : 0 < m) :
    ∀ p, p < (t * m) * (t * m) → invTilePos (t * m) t p < (t * m) * (t * m) := by
  intro p hp
  have hmm : (t * m) / t = m := Nat.mul_div_cancel_left _ ht
  have hassoc : (t * m) * (t * m) = (m * m) * (t * t) := by ring
  have hY_lt : p / (t * m) < t * m := Nat.div_lt_of_lt_mul hp
  have hX_lt : p % (t * m) < t * m := Nat.mod_lt _ (by positivity)
  have hty_lt : p / (t * m) / t < m := Nat.div_lt_of_lt_mul (by omega)
  have htx_lt : p % (t * m) / t < m := Nat.div_lt_of_lt_mul (by omega)
  have hpy_lt : p / (t * m) % t < t := Nat.mod_lt _ ht
  have hpx_lt : p % (t * m) % t < t := Nat.mod_lt _ ht
  rw [invTilePos, hmm]
  have hA : p / (t * m) / t * m + p % (t * m) / t + 1 ≤ m * m := by
    have hc1 : (p / (t * m) / t + 1) * m ≤ m * m :=
      Nat.mul_le_mul_right _ (by omega)
    have hc2 : (p / (t * m) / t + 1) * m = p / (t * m) / t * m + m := by ring
    omega
  have hB : p / (t * m) % t * t + p % (t * m) % t < t * t := by
    have hc1 : (p / (t * m) % t + 1) * t ≤ t * t := by
      have := Nat.mul_le_mul_right t (show p / (t * m) % t + 1 ≤ t by omega)
      omega
    have hc2 : (p / (t * m) % t + 1) * t = p / (t * m) % t * t + t := by ring
    omega
  have hfin : (p / (t * m) / t * m + p % (t * m) / t + 1) * (t * t) ≤
      (m * m) * (t * t) := Nat.mul_le_mul_right _ hA
  have hexp : (p / (t * m) / t * m + p % (t * m) / t + 1) * (t * t) =
      (p / (t * m) / t * m + p % (t * m) / t) * (t * t) + t * t := by ring
  omega

/-- Helper: element access into a flat-mapped list of byte pairs. -/
theorem flatMap_pair_getD (f g : Nat → Nat) :
    ∀ n, (((List.range n).flatMap (fun k => [f k, g k])).length = 2 * n) ∧
      (∀ i, i < n →
        ((List.range n).flatMap (fun k => [f k, g k])).getD (2 * i) 0 = f i ∧
        ((List.range n).flatMap (fun k => [f k, g k])).getD (2 * i + 1) 0 =
          g i) := by
  intro n
  induction n with
  | zero => simp
  | succ n ih =>
    obtain ⟨ihl, ihg⟩ := ih
    rw [List.range_succ, List.flatMap_append]
    have hsing : ([n] : List Nat).flatMap (fun k => [f k, g k]) = [f n, g n] := by
      simp
    rw [hsing]
    refine ⟨?_, ?_⟩
    · rw [List.length_append, ihl]
      simp
      omega
    · intro i hi
      by_cases hin : i = n
      · subst hin
        constructor
        · rw [List.getD_append_right _ _ _ _ (by omega)]
          rw [ihl, show 2 * i - 2 * i = 0 by omega]
          rfl
        · rw [List.getD_append_right _ _ _ _ (by omega)]
          rw [ihl, show 2 * i + 1 - 2 * i = 1 by omega]
          rfl
      · obtain ⟨h1, h2⟩ := ihg i (by omega)
        constructor
        · rw [List.getD_append _ _ _ _ (by rw [ihl]; omega)]
          exact h1
        · rw [List.getD_append _ _ _ _ (by rw [ihl]; omega)]
          exact h2

/-- Helper: a fold of writes through an injective in-range position map
leaves each written position holding its value. -/
theorem foldl_set_char (pos : Nat → Nat) (vals : Nat → Int) (n : Nat)
    (hpos : ∀ k, k < n → pos k < n)
    (hinj : ∀ k k', k < n → k' < n → pos k = pos k' → k = k') :
    ∀ M, M ≤ n →
      (((List.range M).foldl (fun out k => out.set (pos k) (vals k))
        (List.replicate n (0 : Int))).length = n) ∧
      (∀ k, k < M →
        ((List.range M).foldl (fun out k => out.set (pos k) (vals k))
          (List.replicate n (0 : Int))).getD (pos k) 0 = vals k) := by
  intro M
  induction M with
  | zero =>
    intro hM
    simp
  | succ M ih =>
    intro hM
    obtain ⟨ihl, ihg⟩ := ih (by omega)
    rw [List.range_succ, List.foldl_append, List.foldl_cons, List.foldl_nil]
    refine ⟨?_, ?_⟩
    · rw [List.length_set, ihl]
    · intro k hk
      by_cases hkM : k = M
      · subst hkM
        rw [getD_set_self _ _ _ _ (by rw [ihl]; exact hpos k (by omega))]
      · rw [getD_set_ne _ _ _ _ _ (fun h =>
          hkM ((hinj M k (by omega) (by omega) h).symm))]
        exact ihg k (by omega)

/-- Helper: quantisation followed by de-quantisation is the identity on
heights whose biased value is a multiple of the height resolution. -/
theorem quant_roundtrip (H : Nat) (h : Int) (hH : 0 < H)
    (hlo : -500 ≤ h) (hhi : h ≤ 10000)
    (hdvd : H ∣ (h + 500).toNat) :
    toI16 ((quantU16 H (h + 500).toNat * H : Nat) % 65536 - 500) = h := by
  obtain ⟨a, ha⟩ := hdvd
  have hph : (h + 500).toNat ≤ 10500 := by omega
  have haph : a ≤ (h + 500).toNat := by
    rw [ha]
    exact Nat.le_mul_of_pos_left a hH
  have hq : quantU16 H (h + 500).toNat = a := by
    rw [quantU16, ha]
    have he : 2 * (H * a) + H = a * (2 * H) + H := by ring
    rw [he, (divmod_unique a H (2 * H) (by omega) (by omega)).1]
    omega
  rw [hq]
  have hval : a * H = (h + 500).toNat := by
    rw [ha]
    ring
  rw [hval]
  have hcast : ((h + 500).toNat : Int) = h + 500 := Int.toNat_of_nonneg (by omega)
  rw [hcast, Int.emod_eq_of_lt (by omega) (by omega), toI16]
  have e : h + 500 - 500 + 32768 = h + 32768 := by ring
  rw [e, Int.emod_eq_of_lt (by omega) (by omega)]
  ring

/-- Helper for C1: pointwise characterisation of decode-after-encode:
every grid position holds the de-quantised quantisation of its own
height (the sub-tiling reorder cancels; the zstd transport is the
identity). -/
theorem decode_encode_getD (t m H : Nat) (hs : List Int) (ht : 0 < t)
    (hm : 0 < m) :
    ((get_tile_untile (t * m) t H (add_tile_prep (t * m) t H hs)).length =
      (t * m) * (t * m)) ∧
    (∀ p, p < (t * m) * (t * m) →
      (get_tile_untile (t * m) t H (add_tile_prep (t * m) t H hs)).getD p 0 =
        toI16 ((quantU16 H (hs.getD p 0 + 500).toNat * H : Nat) % 65536 -
          500)) := by
  obtain ⟨hbl, hbg⟩ := flatMap_pair_getD
    (fun k => quantU16 H (hs.getD (tilePos (t * m) t k) 0 + 500).toNat % 256)
    (fun k => quantU16 H (hs.getD (tilePos (t * m) t k) 0 + 500).toNat / 256)
    ((t * m) * (t * m))
  obtain ⟨hfl, hfg⟩ := foldl_set_char (fun k => tilePos (t * m) t k)
    (fun k => toI16 ((((add_tile_prep (t * m) t H hs).getD (2 * k) 0 +
      (add_tile_prep (t * m) t H hs).getD (2 * k + 1) 0 * 256) * H : Nat) %
        65536 - 500))
    ((t * m) * (t * m))
    (fun k hk => tilePos_lt t m ht hm k hk)
    (fun k k' hk hk' heq => by
      have h1 := invTilePos_tilePos t m ht hm k hk
      have h2 := invTilePos_tilePos t m ht hm k' hk'
      rw [← h1, ← h2]
      exact congrArg (invTilePos (t * m) t) heq)
    ((t * m) * (t * m)) le_rfl
  constructor
  · exact hfl
  · intro p hp
    rw [get_tile_untile]
    have hkp : invTilePos (t * m) t p < (t * m) * (t * m) :=
      invTilePos_lt t m ht hm p hp
    have hround := tilePos_invTilePos t m ht hm p hp
    have hmain := hfg (invTilePos (t * m) t p) hkp
    rw [hround] at hmain
    rw [hmain]
    obtain ⟨hb1, hb2⟩ := hbg (invTilePos (t * m) t p) hkp
    have hbytes : (add_tile_prep (t * m) t H hs).getD
        (2 * invTilePos (t * m) t p) 0 = quantU16 H
          (hs.getD (tilePos (t * m) t (invTilePos (t * m) t p)) 0 +
            500).toNat % 256 := hb1
    have hbytes2 : (add_tile_prep (t * m) t H hs).getD
        (2 * invTilePos (t * m) t p + 1) 0 = quantU16 H
          (hs.getD (tilePos (t * m) t (invTilePos (t * m) t p)) 0 +
            500).toNat / 256 := hb2
    rw [hbytes, hbytes2, hround]
    have hrecon : quantU16 H (hs.getD p 0 + 500).toNat % 256 +
        quantU16 H (hs.getD p 0 + 500).toNat / 256 * 256 =
        quantU16 H (hs.getD p 0 + 500).toNat := by
      have h1 := Nat.mod_add_div (quantU16 H (hs.getD p 0 + 500).toNat) 256
      omega
    rw [hrecon]

/-- **C1 (counterexample)** Exact codec round-trip fails for `H > 1`:
at `R = 256`, `H = 5`, the constant grid of 1-metre heights (all in
`[−500, 10000]`) decodes to 0 metres — quantisation rounds `501 / 5` to
100 and de-quantisation returns `100·5 − 500 = 0 ≠ 1`. -/
theorem codec_roundtrip_counterexample :
    (∀ h ∈ List.replicate (256 * 256) (1 : Int), -500 ≤ h ∧ h ≤ 10000) ∧
    get_tile_untile (256 * 1) 256 5
        (add_tile_prep (256 * 1) 256 5 (List.replicate (256 * 256) 1)) ≠
      List.replicate (256 * 256) (1 : Int) := by
  constructor
  · intro h hmem
    rcases List.eq_of_mem_replicate hmem with rfl
    exact ⟨by norm_num, by norm_num⟩
  · intro heq
    have hchar := (decode_encode_getD 256 1 5 (List.replicate (256 * 256) 1)
      (by norm_num) (by norm_num)).2 0 (by norm_num)
    have hrep : (List.replicate (256 * 256) (1 : Int)).getD 0 0 = 1 := by
      rw [List.getD_eq_getElem?_getD, List.getElem?_replicate]
      norm_num
    rw [heq, hrep] at hchar
    norm_num [quantU16, toI16] at hchar

/-- **C1 (amended)** Codec round-trip: for a `(t·m) × (t·m)` tile with
`t × t` sub-tiling and height resolution `H`, decoding an encoded grid
returns exactly the input *iff quantisation is lossless*: whenever every
height lies in `[−500, 10000]` and its biased value `h + 500` is a
multiple of `H` (always true for `H = 1`, and for water pixels `−500`
at every `H`), `decode(encode(x, H), H) = x` exactly.  For `H > 1`,
heights not on the `H`-metre grid are rounded (see the
counterexample). -/
theorem codec_roundtrip (t m H : Nat) (hs : List Int) (ht : 0 < t)
    (hm : 0 < m) (hH : 0 < H) (hlen : hs.length = (t * m) * (t * m))
    (hvals : ∀ h ∈ hs, -500 ≤ h ∧ h ≤ 10000 ∧ H ∣ (h + 500).toNat) :
    get_tile_untile (t * m) t H (add_tile_prep (t * m) t H hs) = hs := by
  obtain ⟨hL, hG⟩ := decode_encode_getD t m H hs ht hm
  apply List.ext_getElem (by rw [hL, hlen])
  intro p h1 h2
  have hp : p < (t * m) * (t * m) := by
    rw [hL] at h1
    exact h1
  have hmem : hs.getD p 0 ∈ hs := by
    rw [List.getD_eq_getElem _ _ h2]
    exact List.getElem_mem h2
  obtain ⟨hlo, hhi, hdvd⟩ := hvals _ hmem
  have hgp := hG p hp
  rw [quant_roundtrip H (hs.getD p 0) hH hlo hhi hdvd] at hgp
  rw [← List.getD_eq_getElem _ (0 : Int) h1, ← List.getD_eq_getElem _ (0 : Int) h2]
  exact hgp

/-- Witness for C1 (amended): a 2×2 tile at `H = 5` whose heights
(including a water pixel) all sit on the 5-metre grid round-trips
exactly. -/
theorem codec_roundtrip_witness :
    get_tile_untile (2 * 1) 2 5
        (add_tile_prep (2 * 1) 2 5 [-500, 0, 2500, 10000]) =
      [-500, 0, 2500, 10000] :=
  codec_roundtrip 2 1 5 [-500, 0, 2500, 10000] (by decide) (by decide)
    (by decide) (by decide) (by decide)

/-- Helper: size after an append. -/
theorem appendBytes_size (f : ContainerFile) (data : List Nat) :
    (appendBytes f data).size = f.size + data.length := by
  rw [appendBytes, writeBytes]
  simp

/-- Helper: an append leaves existing bytes unchanged. -/
theorem appendBytes_bytes_lt (f : ContainerFile) (data : List Nat) (p : Nat)
    (h : p < f.size) : (appendBytes f data).bytes p = f.bytes p := by
  rw [appendBytes, writeBytes]
  simp only []
  rw [if_neg (by omega)]

/-- Helper: an append places the data at EOF. -/
theorem appendBytes_bytes_in (f : ContainerFile) (data : List Nat) (i : Nat)
    (h : i < data.length) :
    (appendBytes f data).bytes (f.size + i) = data.getD i 0 := by
  rw [appendBytes, writeBytes]
  simp only []
  rw [if_pos (by omega), Nat.add_sub_cancel_left]

/-- Helper: size after a region write. -/
theorem writeRegion_size (f : ContainerFile) (off len : Nat) (g : Nat → Nat) :
    (writeRegion f off len g).size = max f.size (off + len) := rfl

/-- Helper: bytes inside a written region. -/
theorem writeRegion_bytes_in (f : ContainerFile) (off len : Nat)
    (g : Nat → Nat) (p : Nat) (h1 : off ≤ p) (h2 : p < off + len) :
    (writeRegion f off len g).bytes p = g (p - off) := by
  rw [writeRegion]
  simp only []
  rw [if_pos ⟨h1, h2⟩]

/-- Helper: bytes outside a written region. -/
theorem writeRegion_bytes_out (f : ContainerFile) (off len : Nat)
    (g : Nat → Nat) (p : Nat) (h : p < off ∨ off + len ≤ p) :
    (writeRegion f off len g).bytes p = f.bytes p := by
  rw [writeRegion]
  simp only []
  rw [if_neg (by omega)]

/-- Helper: `u16` little-endian recomposition. -/
theorem readU16f_recompose (g : Nat → Nat) (off v : Nat) (hv : v < 65536)
    (h0 : g off = v % 256) (h1 : g (off + 1) = v / 256 % 256) :
    readU16f g off = v := by
  rw [readU16f, h0, h1]
  omega

/-- Helper: `u64` little-endian recomposition. -/
theorem readU64f_recompose (g : Nat → Nat) (off v : Nat) (hv : v < 2 ^ 64)
    (hg : ∀ b, b < 8 → g (off + b) = u64Byte v b) : readU64f g off = v := by
  have h0 : g off = v / 256 ^ 0 % 256 := by
    have := hg 0 (by norm_num)
    simpa [u64Byte] using this
  have h1 := hg 1 (by norm_num)
  have h2 := hg 2 (by norm_num)
  have h3 := hg 3 (by norm_num)
  have h4 := hg 4 (by norm_num)
  have h5 := hg 5 (by norm_num)
  have h6 := hg 6 (by norm_num)
  have h7 := hg 7 (by norm_num)
  rw [u64Byte] at h1 h2 h3 h4 h5 h6 h7
  rw [readU64f, h0, h1, h2, h3, h4, h5, h6, h7]
  have c0 : v / 256 ^ 0 = v := by norm_num
  have c1 : v / 256 ^ 1 = v / 256 := by norm_num
  have c2 : v / 256 ^ 2 = v / 256 / 256 := by
    rw [Nat.div_div_eq_div_mul]
    norm_num
  have c3 : v / 256 ^ 3 = v / 256 ^ 2 / 256 := by
    rw [Nat.div_div_eq_div_mul]
    norm_num
  have c4 : v / 256 ^ 4 = v / 256 ^ 3 / 256 := by
    rw [Nat.div_div_eq_div_mul]
    norm_num
  have c5 : v / 256 ^ 5 = v / 256 ^ 4 / 256 := by
    rw [Nat.div_div_eq_div_mul]
    norm_num
  have c6 : v / 256 ^ 6 = v / 256 ^ 5 / 256 := by
    rw [Nat.div_div_eq_div_mul]
    norm_num
  have c7 : v / 256 ^ 7 = v / 256 ^ 6 / 256 := by
    rw [Nat.div_div_eq_div_mul]
    norm_num
  have c8 : v / 256 ^ 7 / 256 = 0 := by
    rw [Nat.div_div_eq_div_mul]
    apply Nat.div_eq_of_lt
    calc v < 2 ^ 64 := hv
    _ ≤ 256 ^ 7 * 256 := by norm_num
  omega

/-- Helper: size of a freshly created container. -/
theorem builderNew_size (res hres tiling : Nat) :
    (builderNew res hres tiling).file.size = 518421 := by
  rw [builderNew]
  simp only [appendBytes_size, writeRegion_size, headerV4]
  simp

/-- Helper: header bytes of a freshly created container. -/
theorem builderNew_bytes_lo (res hres tiling : Nat) (j : Nat) (hj : j < 13) :
    (builderNew res hres tiling).file.bytes j =
      (headerV4 res hres tiling).getD j 0 := by
  rw [builderNew]
  simp only []
  have hsz0 : (appendBytes (⟨fun _ => 0, 0⟩ : ContainerFile)
      (headerV4 res hres tiling)).size = 13 := by
    rw [appendBytes_size]
    simp [headerV4]
  have hsz1 : (appendBytes (appendBytes ⟨fun _ => 0, 0⟩
      (headerV4 res hres tiling)) (List.replicate 8 0)).size = 21 := by
    rw [appendBytes_size, hsz0]
    simp
  rw [writeRegion_bytes_out _ _ _ _ _ (by omega)]
  rw [appendBytes_bytes_lt _ _ _ (by omega)]
  have h := appendBytes_bytes_in (⟨fun _ => 0, 0⟩ : ContainerFile)
    (headerV4 res hres tiling) j (by simp [headerV4]; omega)
  simpa using h

/-- Helper: the dictionary-length and offset-table region of a fresh
container is all zeros. -/
theorem builderNew_bytes_mid (res hres tiling : Nat) (j : Nat)
    (h1 : 13 ≤ j) (h2 : j < 518421) :
    (builderNew res hres tiling).file.bytes j = 0 := by
  rw [builderNew]
  simp only []
  have hsz0 : (appendBytes (⟨fun _ => 0, 0⟩ : ContainerFile)
      (headerV4 res hres tiling)).size = 13 := by
    rw [appendBytes_size]
    simp [headerV4]
  have hsz1 : (appendBytes (appendBytes ⟨fun _ => 0, 0⟩
      (headerV4 res hres tiling)) (List.replicate 8 0)).size = 21 := by
    rw [appendBytes_size, hsz0]
    simp
  by_cases hj : j < 21
  · rw [writeRegion_bytes_out _ _ _ _ _ (by omega)]
    have h3 : j = (appendBytes (⟨fun _ => 0, 0⟩ : ContainerFile)
        (headerV4 res hres tiling)).size + (j - 13) := by
      rw [hsz0]
      omega
    rw [h3, appendBytes_bytes_in _ _ _ (by simp; omega)]
    rw [List.getD_eq_getElem?_getD, List.getElem?_replicate]
    simp [show j - 13 < 8 by omega]
  · rw [writeRegion_bytes_in _ _ _ _ _ (by omega) (by rw [hsz1]; omega)]
    rw [tileMapBytesAt, u64Byte]
    simp

/-- Helper: a fresh container has an all-zero offset table. -/
theorem builderNew_tileMap (res hres tiling : Nat) (i : Nat) :
    (builderNew res hres tiling).tileMap i = 0 := rfl

/-- Helper: frames produced by `add_tile_prep` have `2·res²` bytes. -/
theorem add_tile_prep_length (res tiling H : Nat) (hs : List Int) :
    (add_tile_prep res tiling H hs).length = 2 * (res * res) :=
  (flatMap_pair_getD _ _ (res * res)).1

/-- Helper: `add_tile` records the pre-append EOF for the written cell. -/
theorem addTile_tileMap_self (res tiling hres : Nat) (b : BuilderState)
    (cell : Nat) (hs : List Int) :
    (addTile res tiling hres b cell hs).tileMap cell = b.file.size := by
  rw [addTile]
  simp

/-- Helper: `add_tile` leaves other cells' offsets unchanged. -/
theorem addTile_tileMap_ne (res tiling hres : Nat) (b : BuilderState)
    (cell : Nat) (hs : List Int) (q : Nat) (h : q ≠ cell) :
    (addTile res tiling hres b cell hs).tileMap q = b.tileMap q := by
  rw [addTile]
  simp [h]

/-- Helper: `add_tile` appends the serialised frame at EOF. -/
theorem addTile_file (res tiling hres : Nat) (b : BuilderState)
    (cell : Nat) (hs : List Int) :
    (addTile res tiling hres b cell hs).file =
      appendBytes b.file (add_tile_prep res tiling hres hs) := rfl

/-- Helper for C2: the invariant holds after the build fold. -/
theorem buildFold_inv (res hres tiling : Nat) :
    ∀ adds : List (Nat × List Int), (adds.map Prod.fst).Nodup →
      BuildInv res hres tiling adds
        (adds.foldl (fun b ch => addTile res tiling hres b ch.1 ch.2)
          (builderNew res hres tiling)) := by
  intro adds
  induction adds using List.reverseRecOn with
  | nil =>
    intro hnd
    simp only [List.foldl_nil]
    exact ⟨by rw [builderNew_size]; simp, builderNew_bytes_lo res hres tiling,
      builderNew_bytes_mid res hres tiling, by simp, fun q _ => rfl⟩
  | append_singleton l a ih =>
    intro hnd
    have hnd' : (l.map Prod.fst).Nodup := by
      rw [List.map_append] at hnd
      exact (List.nodup_append.mp hnd).1
    have hnotin : a.1 ∉ l.map Prod.fst := by
      rw [List.map_append] at hnd
      have hd := (List.nodup_append.mp hnd).2.2
      intro hmem
      exact hd hmem (by simp)
    obtain ⟨ihsz, ihlo, ihmid, ihfr, ihz⟩ := ih hnd'
    rw [List.foldl_append, List.foldl_cons, List.foldl_nil]
    set B := l.foldl (fun b ch => addTile res tiling hres b ch.1 ch.2)
      (builderNew res hres tiling) with hB
    have hflen := add_tile_prep_length res tiling hres a.2
    refine ⟨?_, ?_, ?_, ?_, ?_⟩
    · rw [addTile_file, appendBytes_size, hflen, ihsz, List.length_append]
      have hb : (l.length + 1) * (2 * (res * res)) =
          l.length * (2 * (res * res)) + 2 * (res * res) := by ring
      simp only [List.length_singleton]
      omega
    · intro j hj
      rw [addTile_file, appendBytes_bytes_lt _ _ _ (by omega)]
      exact ihlo j hj
    · intro j hj1 hj2
      rw [addTile_file, appendBytes_bytes_lt _ _ _ (by omega)]
      exact ihmid j hj1 hj2
    · intro ch hch
      rcases List.mem_append.mp hch with hch | hch
      · obtain ⟨hf1, hf2, hf3⟩ := ihfr ch hch
        have hne : ch.1 ≠ a.1 := by
          intro he
          exact hnotin (he ▸ List.mem_map_of_mem Prod.fst hch)
        rw [addTile_tileMap_ne _ _ _ _ _ _ _ hne, addTile_file]
        refine ⟨hf1, by rw [appendBytes_size]; omega, fun i hi => ?_⟩
        rw [appendBytes_bytes_lt _ _ _ (by omega)]
        exact hf3 i hi
      · rcases List.mem_singleton.mp hch with rfl
        rw [addTile_tileMap_self, addTile_file]
        refine ⟨by omega, by rw [appendBytes_size]; omega, fun i hi => ?_⟩
        rw [appendBytes_bytes_in _ _ _ (by omega)]
    · intro q hq
      rw [List.map_append] at hq
      have hq1 : q ∉ l.map Prod.fst := fun h => hq (List.mem_append.mpr (Or.inl h))
      have hq2 : q ≠ a.1 := fun h => hq (List.mem_append.mpr (Or.inr (by simp [h])))
      rw [addTile_tileMap_ne _ _ _ _ _ _ _ hq2]
      exact ihz q hq1

/-- Helper: size after the flush. -/
theorem builderFlush_size (b : BuilderState) (h : 518413 ≤ b.file.size) :
    (builderFlush b).file.size = b.file.size := by
  rw [builderFlush]
  simp only [writeRegion_size]
  omega

/-- Helper: the flush leaves the header untouched. -/
theorem builderFlush_bytes_lo (b : BuilderState) (p : Nat) (hp : p < 13) :
    (builderFlush b).file.bytes p = b.file.bytes p := by
  rw [builderFlush]
  exact writeRegion_bytes_out _ _ _ _ _ (by omega)

/-- Helper: the flush writes the offset table at position 13. -/
theorem builderFlush_bytes_tab (b : BuilderState) (p : Nat)
    (h1 : 13 ≤ p) (h2 : p < 518413) :
    (builderFlush b).file.bytes p = tileMapBytesAt b.tileMap (p - 13) := by
  rw [builderFlush]
  exact writeRegion_bytes_in _ _ _ _ _ (by omega) (by omega)

/-- Helper: the flush leaves the payload region untouched. -/
theorem builderFlush_bytes_hi (b : BuilderState) (p : Nat)
    (h1 : 518413 ≤ p) :
    (builderFlush b).file.bytes p = b.file.bytes p := by
  rw [builderFlush]
  exact writeRegion_bytes_out _ _ _ _ _ (by omega)

/-- Helper: localize a getD lookup of the version-4 header. -/
theorem headerV4_getD_7 (res hres tiling : Nat) :
    (headerV4 res hres tiling).getD 7 0 = res % 256 := rfl

/-- Helper: `get_tile` on a reader cell whose mapped frame bytes match a
serialised tile recovers the original heights. -/
theorem reader_cell (d : DatasetState) (t m hres : Nat) (ht : 0 < t)
    (hm : 0 < m) (hhres : 0 < hres)
    (hd1 : d.resolution = t * m) (hd2 : d.tiling = t)
    (hd3 : d.height_resolution = hres) (cell : Nat) (hs : List Int)
    (htm : d.tileMapR cell ≠ 0)
    (hdata : ∀ i, i < 2 * ((t * m) * (t * m)) →
      d.data (d.tileMapR cell - d.dataOffset + i) =
        (add_tile_prep (t * m) t hres hs).getD i 0)
    (hlen : hs.length = (t * m) * (t * m))
    (hvals : ∀ h ∈ hs, -500 ≤ h ∧ h ≤ 10000 ∧ (hres : Nat) ∣ (h + 500).toNat) :
    get_tile_r d cell = some hs := by
  rw [get_tile_r, if_neg htm, hd1, hd2, hd3]
  have hml : (List.range (t * m * (t * m) * 2)).map
      (fun i => d.data (d.tileMapR cell - d.dataOffset + i)) =
      add_tile_prep (t * m) t hres hs := by
    apply List.ext_getElem
    · rw [List.length_map, List.length_range, add_tile_prep_length]
      ring
    · intro i hi1 hi2
      rw [List.getElem_map, List.getElem_range]
      have hib : i < 2 * ((t * m) * (t * m)) := by
        rw [List.length_map, List.length_range] at hi1
        have : t * m * (t * m) * 2 = 2 * ((t * m) * (t * m)) := by ring
        omega
      rw [hdata i hib]
      exact List.getD_eq_getElem _ _ hi2
  rw [hml]
  congr 1
  obtain ⟨hdl, hdg⟩ := decode_encode_getD t m hres hs ht hm
  apply List.ext_getElem
  · rw [hdl, hlen]
  · intro p hp1 hp2
    have hplt : p < (t * m) * (t * m) := by rw [hdl] at hp1; exact hp1
    have h1 : (get_tile_untile (t * m) t hres
        (add_tile_prep (t * m) t hres hs)).getD p 0 =
        toI16 ((quantU16 hres (hs.getD p 0 + 500).toNat * hres : Nat) %
          65536 - 500) := hdg p hplt
    have hmem : hs.getD p 0 ∈ hs := by
      rw [List.getD_eq_getElem _ _ hp2]
      exact List.getElem_mem hp2
    obtain ⟨hv1, hv2, hv3⟩ := hvals _ hmem
    have h2 := quant_roundtrip hres (hs.getD p 0) hhres hv1 hv2 hv3
    rw [← List.getD_eq_getElem _ 0 hp1, ← List.getD_eq_getElem _ 0 hp2,
      h1, h2]

/-- **C2** (amended) Container round-trip: build a version-4 container
with an empty dictionary by adding tiles at distinct cells, flush, and
reopen it with the reader. The load succeeds, the metadata fields are
recovered, `tile_exists`/`get_tile` on every added cell succeed and
return the supplied heights (exactly, thanks to the divisibility
condition making quantisation lossless), and on every other cell
`tile_exists` is false and `get_tile` is `none`. -/
theorem container_roundtrip (t m hres : Nat) (adds : List (Nat × List Int))
    (ht : 0 < t) (hm : 0 < m) (hhres : 0 < hres)
    (hres64 : t * m < 65536) (hh64 : hres < 65536) (ht64 : t < 65536)
    (hnd : (adds.map Prod.fst).Nodup)
    (hcells : ∀ ch ∈ adds, ch.1 < 64800)
    (hlen : ∀ ch ∈ adds, ch.2.length = (t * m) * (t * m))
    (hvals : ∀ ch ∈ adds, ∀ h ∈ ch.2,
      -500 ≤ h ∧ h ≤ 10000 ∧ (hres : Nat) ∣ (h + 500).toNat)
    (hcap : 518421 + adds.length * (2 * ((t * m) * (t * m))) < 2 ^ 64) :
    ∃ d, loadV4 (buildAll (t * m) hres t adds).file = some d ∧
      d.resolution = t * m ∧ d.height_resolution = hres ∧ d.tiling = t ∧
      (∀ ch ∈ adds, tile_exists_r d ch.1 = true ∧
        get_tile_r d ch.1 = some ch.2) ∧
      (∀ q, q < 64800 → q ∉ adds.map Prod.fst →
        tile_exists_r d q = false ∧ get_tile_r d q = none) := by
  obtain ⟨isz, ilo, imid, ifr, iz⟩ := buildFold_inv (t * m) hres t adds hnd
  rw [buildAll]
  set B := adds.foldl (fun b ch => addTile (t * m) t hres b ch.1 ch.2)
    (builderNew (t * m) hres t) with hBdef
  norm_num at hcap
  have hBsz : 518413 ≤ B.file.size := by omega
  have hFsz : (builderFlush B).file.size = B.file.size :=
    builderFlush_size B hBsz
  have hflo : ∀ p, p < 13 → (builderFlush B).file.bytes p =
      (headerV4 (t * m) hres t).getD p 0 := by
    intro p hp
    rw [builderFlush_bytes_lo B p hp]
    exact ilo p hp
  have htab : ∀ q, q < 64800 →
      readU64f (builderFlush B).file.bytes (13 + 8 * q) = B.tileMap q := by
    intro q hq
    have htmlt : B.tileMap q < 2 ^ 64 := by
      show B.tileMap q < 18446744073709551616
      by_cases hmem : q ∈ adds.map Prod.fst
      · obtain ⟨ch, hch, hcheq⟩ := List.mem_map.mp hmem
        have h2 := (ifr ch hch).2.1
        rw [hcheq] at h2
        omega
      · rw [iz q hmem]
        norm_num
    apply readU64f_recompose _ _ _ htmlt
    intro b hb
    rw [builderFlush_bytes_tab B _ (by omega) (by omega), tileMapBytesAt]
    have h1 : (13 + 8 * q + b - 13) / 8 = q := by omega
    have h2 : (13 + 8 * q + b - 13) % 8 = b := by omega
    rw [h1, h2]
  have hdict : readU64f (builderFlush B).file.bytes (13 + 64800 * 8) = 0 := by
    apply readU64f_recompose _ _ _ (by norm_num)
    intro b hb
    rw [builderFlush_bytes_hi B _ (by omega)]
    rw [imid _ (by omega) (by omega)]
    simp [u64Byte]
  have hb0 : (builderFlush B).file.bytes 0 = 115 := by
    rw [hflo 0 (by norm_num)]
    rfl
  have hb1 : (builderFlush B).file.bytes 1 = 117 := by
    rw [hflo 1 (by norm_num)]
    rfl
  have hb2 : (builderFlush B).file.bytes 2 = 115 := by
    rw [hflo 2 (by norm_num)]
    rfl
  have hb3 : (builderFlush B).file.bytes 3 = 115 := by
    rw [hflo 3 (by norm_num)]
    rfl
  have hb4 : (builderFlush B).file.bytes 4 = 121 := by
    rw [hflo 4 (by norm_num)]
    rfl
  have hver : readU16f (builderFlush B).file.bytes 5 = 4 := by
    have h5 : (builderFlush B).file.bytes 5 = 4 := by
      rw [hflo 5 (by norm_num)]
      rfl
    have h6 : (builderFlush B).file.bytes 6 = 0 := by
      rw [hflo 6 (by norm_num)]
      rfl
    rw [readU16f, h5, h6]
  have hres16 : readU16f (builderFlush B).file.bytes 7 = t * m := by
    apply readU16f_recompose _ _ _ hres64
    · rw [hflo 7 (by norm_num)]
      rfl
    · rw [hflo 8 (by norm_num)]
      rfl
  have hh16 : readU16f (builderFlush B).file.bytes 9 = hres := by
    apply readU16f_recompose _ _ _ hh64
    · rw [hflo 9 (by norm_num)]
      rfl
    · rw [hflo 10 (by norm_num)]
      rfl
  have htil16 : readU16f (builderFlush B).file.bytes 11 = t := by
    apply readU16f_recompose _ _ _ ht64
    · rw [hflo 11 (by norm_num)]
      rfl
    · rw [hflo 12 (by norm_num)]
      rfl
  have hsz7 : ¬ ((builderFlush B).file.size < 7) := by
    rw [hFsz]
    omega
  have hsz2 : ¬ ((builderFlush B).file.size < 13 + 64800 * 8 + 8 + 0) := by
    rw [hFsz]
    omega
  rw [loadV4, hdict, if_neg hsz7,
    if_neg (not_not_intro ⟨hb0, hb1, hb2, hb3, hb4⟩),
    if_neg (fun hne => hne hver), if_neg hsz2]
  refine ⟨_, rfl, hres16, hh16, htil16, ?_, ?_⟩
  · intro ch hch
    obtain ⟨hf1, hf2, hf3⟩ := ifr ch hch
    have hc := hcells ch hch
    constructor
    · rw [tile_exists_r]
      dsimp only
      simp only [htab ch.1 hc]
      rw [decide_eq_true_eq]
      omega
    · apply reader_cell _ t m hres ht hm hhres hres16 htil16 hh16 ch.1 ch.2
      · dsimp only
        rw [htab ch.1 hc]
        omega
      · intro i hi
        dsimp only
        rw [htab ch.1 hc]
        have harith : 13 + 64800 * 8 + 8 + 0 +
            (B.tileMap ch.1 - (13 + 64800 * 8 + 8 + 0) + i) =
            B.tileMap ch.1 + i := by omega
        rw [harith, builderFlush_bytes_hi B _ (by omega)]
        exact hf3 i hi
      · exact hlen ch hch
      · exact hvals ch hch
  · intro q hq hqn
    have htm0 : readU64f (builderFlush B).file.bytes (13 + 8 * q) = 0 := by
      rw [htab q hq]
      exact iz q hqn
    constructor
    · rw [tile_exists_r]
      dsimp only
      simp [htm0]
    · rw [get_tile_r]
      dsimp only
      rw [if_pos htm0]

/-- **C2** Counterexample to the literal claim: get_tile after a round
trip does not return exactly the supplied data in general, because
add_tile quantises heights. Building a container with height resolution
5 and a single 1x1 tile holding 1 m, flushing and reloading returns 0 m. -/
theorem container_roundtrip_counterexample :
    (loadV4 (buildAll (1 * 1) 5 1 [(0, [1])]).file).map
      (fun d => get_tile_r d 0) = some (some [0]) ∧
    some (some [(0 : Int)]) ≠ some (some [(1 : Int)]) := by
  constructor
  · rfl
  · decide

/-- Witness for C2 at a concrete instance: a 1x1 container at height
resolution 1 (lossless) with one tile at cell 0 holding 7 m. -/
theorem container_roundtrip_witness :
    ∃ d, loadV4 (buildAll (1 * 1) 1 1 [(0, [7])]).file = some d ∧
      d.resolution = 1 * 1 ∧ d.height_resolution = 1 ∧ d.tiling = 1 ∧
      (∀ ch ∈ [((0 : Nat), [(7 : Int)])], tile_exists_r d ch.1 = true ∧
        get_tile_r d ch.1 = some ch.2) ∧
      (∀ q, q < 64800 → q ∉ [((0 : Nat), [(7 : Int)])].map Prod.fst →
        tile_exists_r d q = false ∧ get_tile_r d q = none) :=
  container_roundtrip 1 1 1 [(0, [7])] (by decide) (by decide) (by decide)
    (by decide) (by decide) (by decide) (by decide) (by decide) (by decide)
    (by decide) (by norm_num)

/-- **C10** Out-of-range collision in release mode: `map_lat_lon_to_index`
is total on `i16` pairs when the `debug_assert!`s are compiled out, and
the out-of-range input `(lat, lon) = (−90, 540)` yields the same index
(720) as the distinct in-range cell `(−88, −180)`, so injectivity fails
outside the documented domain. -/
theorem index_collision_release :
    map_lat_lon_to_index_release (-90) 540 = 720 ∧
    map_lat_lon_to_index_release (-88) (-180) = 720 ∧
    ((-90 : Int), (540 : Int)) ≠ ((-88 : Int), (-180 : Int)) ∧
    (-90 ≤ (-88 : Int) ∧ (-88 : Int) < 90 ∧ -180 ≤ (-180 : Int) ∧
      (-180 : Int) < 180) ∧
    ¬(-180 ≤ (540 : Int) ∧ (540 : Int) < 180) ∧
    map_lat_lon_to_index_release (-88) (-180) =
      map_lat_lon_to_index (-88) (-180) := by
  refine ⟨by decide, by decide, by decide, by decide, by decide, by decide⟩

/-- Helper: the bump advance changes only the bump pointer. -/
theorem bumpAdvance_fields (a : AtlasState) :
    (bumpAdvance a).width = a.width ∧ (bumpAdvance a).height = a.height ∧
    (bumpAdvance a).currTileRes = a.currTileRes ∧
    (bumpAdvance a).collectedTiles = a.collectedTiles := by
  rw [bumpAdvance]
  split <;> exact ⟨rfl, rfl, rfl, rfl⟩

/-- Helper: the advanced frontier's row still fits horizontally. -/
theorem bumpAdvance_frontier_x (a : AtlasState)
    (hfx : a.currOffset.1 + a.currTileRes ≤ a.width) :
    (bumpAdvance a).currOffset.1 + a.currTileRes ≤ a.width := by
  rw [bumpAdvance]
  split
  · show 0 + a.currTileRes ≤ a.width
    omega
  · rename_i h
    show a.currOffset.1 + a.currTileRes + a.currTileRes ≤ a.width
    omega

/-- Helper: slots behind the frontier stay behind the advanced
frontier. -/
theorem bumpAdvance_before (a : AtlasState) (hR : 0 < a.currTileRes)
    (p : Nat × Nat) (hp : beforeFrontier a p) :
    beforeFrontier (bumpAdvance a) p := by
  rw [beforeFrontier] at hp
  rw [bumpAdvance]
  split
  · show p.2 < a.currOffset.2 + a.currTileRes ∨
      (p.2 = a.currOffset.2 + a.currTileRes ∧ p.1 < 0)
    omega
  · show p.2 < a.currOffset.2 ∨
      (p.2 = a.currOffset.2 ∧ p.1 < a.currOffset.1 + a.currTileRes)
    omega

/-- Helper: the slot taken at the frontier lies behind the advanced
frontier. -/
theorem bumpAdvance_fresh (a : AtlasState) (hR : 0 < a.currTileRes) :
    beforeFrontier (bumpAdvance a) a.currOffset := by
  rw [bumpAdvance]
  split
  · show a.currOffset.2 < a.currOffset.2 + a.currTileRes ∨
      (a.currOffset.2 = a.currOffset.2 + a.currTileRes ∧ a.currOffset.1 < 0)
    omega
  · show a.currOffset.2 < a.currOffset.2 ∨
      (a.currOffset.2 = a.currOffset.2 ∧
        a.currOffset.1 < a.currOffset.1 + a.currTileRes)
    omega

/-- Helper: a slot strictly behind the frontier differs from it. -/
theorem before_ne (a : AtlasState) (p : Nat × Nat)
    (hp : beforeFrontier a p) : p ≠ a.currOffset := by
  rw [beforeFrontier] at hp
  intro he
  rw [he] at hp
  omega

/-- Helper: `upload_tile` pops the free list when it is non-empty. -/
theorem upload_tile_pop (a : AtlasState) (hne : a.collectedTiles ≠ []) :
    upload_tile a = some (a.collectedTiles.getLast hne,
      bumpAdvance { a with collectedTiles := a.collectedTiles.dropLast }) := by
  rw [upload_tile, dif_pos hne]

/-- Helper: `upload_tile` bumps when the free list is empty and the
frontier row fits. -/
theorem upload_tile_bump (a : AtlasState) (he : a.collectedTiles = [])
    (hh : ¬ (a.height ≤ a.currOffset.2 + a.currTileRes)) :
    upload_tile a = some (a.currOffset, bumpAdvance a) := by
  rw [upload_tile, dif_neg (fun hx => hx he), if_neg hh]

/-- Helper: `upload_tile` refuses when the free list is empty and the
frontier row does not fit. -/
theorem upload_tile_refuse (a : AtlasState) (he : a.collectedTiles = [])
    (hh : a.height ≤ a.currOffset.2 + a.currTileRes) :
    upload_tile a = none := by
  rw [upload_tile, dif_neg (fun hx => hx he), if_pos hh]

/-- Helper: decompose a list at a set position. -/
theorem set_decomp (l : List (Nat × Nat)) (n : Nat) (a : Nat × Nat)
    (h : n < l.length) :
    l.set n a = l.take n ++ a :: l.drop (n + 1) := by
  induction l generalizing n with
  | nil => simp at h
  | cons x xs ih =>
    cases n with
    | zero => simp
    | succ n =>
      simp only [List.set_cons_succ, List.take_succ_cons, List.drop_succ_cons,
        List.cons_append]
      rw [ih n (by simpa using h)]

/-- Helper: decompose a list at a read position. -/
theorem getD_decomp (l : List (Nat × Nat)) (n : Nat) (h : n < l.length) :
    l = l.take n ++ l.getD n (0, 0) :: l.drop (n + 1) := by
  induction l generalizing n with
  | nil => simp at h
  | cons x xs ih =>
    cases n with
    | zero => simp
    | succ n =>
      simp only [List.take_succ_cons, List.drop_succ_cons, List.cons_append,
        List.getD_cons_succ]
      rw [← ih n (by simpa using h)]

/-- Helper: mapping `snd` commutes with filtering on a `snd`-only
predicate. -/
theorem filter_snd_comm (p : (Nat × Nat) → Bool)
    (q : Nat × (Nat × Nat) → Bool) (h : ∀ x, q x = p x.2) :
    ∀ z : List (Nat × (Nat × Nat)),
      (z.filter q).map Prod.snd = (z.map Prod.snd).filter p
  | [] => rfl
  | x :: z => by
    simp only [List.filter_cons, List.map_cons, h x]
    by_cases hx : p x.2
    · rw [if_pos hx, if_pos hx, List.map_cons, filter_snd_comm p q h z]
    · rw [if_neg hx, if_neg hx, filter_snd_comm p q h z]

/-- Helper: the GC freed-cell test holds exactly for real slots. -/
theorem gcFreedB_eq_real (W H : Nat) (q : Nat × (Nat × Nat)) :
    gcFreedB W H q =
      decide (q.2 ≠ unloadedOf H ∧ q.2 ≠ notFoundOf W) := by
  rw [gcFreedB]
  by_cases h1 : q.2 = unloadedOf H
  · simp [h1, gcPendingB]
  · by_cases h2 : q.2 = notFoundOf W <;> simp [h1, h2, gcPendingB]

/-- Helper: after the GC pass every scanned cell holds a sentinel. -/
theorem collectLoop_no_real (W H : Nat) :
    ∀ z : List (Nat × (Nat × Nat)),
      ((collectLoop W H z).1.filter
        (fun p => decide (p ≠ unloadedOf H ∧ p ≠ notFoundOf W))) = []
  | [] => rfl
  | (u, off) :: z => by
    by_cases h1 : u = 1 ∧ off = unloadedOf H
    · rw [collectLoop]
      simp only [if_pos h1, List.filter_cons]
      rw [if_neg (by simp [h1.2]), collectLoop_no_real W H z]
    · by_cases h2 : off ≠ unloadedOf H ∧ off ≠ notFoundOf W
      · rw [collectLoop]
        simp only [if_neg h1, if_pos h2, List.filter_cons]
        rw [if_neg (by simp [unloadedOf]), collectLoop_no_real W H z]
      · rw [collectLoop]
        simp only [if_neg h1, if_neg h2, List.filter_cons]
        rw [if_neg (by simpa using h2), collectLoop_no_real W H z]

/-- Helper: a value appearing at two distinct positions is counted at
least twice. -/
theorem two_le_count_of_two_pos (l : List (Nat × Nat)) (i j : Nat)
    (hij : i < j) (hj : j < l.length)
    (hv : l.getD i (0, 0) = l.getD j (0, 0)) :
    2 ≤ List.count (l.getD i (0, 0)) l := by
  have hi : i < l.length := lt_trans hij hj
  have h1 : l.getD i (0, 0) ∈ l.take j := by
    have : (l.take j).getD i (0, 0) = l.getD i (0, 0) :=
      getD_take_lt l j i (0, 0) hij
    rw [← this]
    have hlt : i < (l.take j).length := by
      rw [List.length_take]
      omega
    rw [List.getD_eq_getElem _ _ hlt]
    exact List.getElem_mem hlt
  have h2 : l.getD i (0, 0) ∈ l.drop j := by
    have h3 := getD_drop_add l j 0
    rw [Nat.add_zero] at h3
    rw [hv, ← h3]
    have hlt : 0 < (l.drop j).length := by
      rw [List.length_drop]
      omega
    rw [List.getD_eq_getElem _ _ hlt]
    exact List.getElem_mem hlt
  have hc : List.count (l.getD i (0, 0)) l =
      List.count (l.getD i (0, 0)) (l.take j) +
      List.count (l.getD i (0, 0)) (l.drop j) := by
    rw [← List.count_append, List.take_append_drop]
  have hp1 := List.count_pos_iff_mem.mpr h1
  have hp2 := List.count_pos_iff_mem.mpr h2
  omega

/-- Helper: `slotOk` depends only on the atlas dimensions and tile
resolution. -/
theorem slotOk_congr (a a' : AtlasState) (p : Nat × Nat)
    (h1 : a'.width = a.width) (h2 : a'.height = a.height)
    (h3 : a'.currTileRes = a.currTileRes) :
    slotOk a' p ↔ slotOk a p := by
  rw [slotOk, slotOk, h1, h2, h3]

/-- Helper: `beforeFrontier` depends only on the bump pointer. -/
theorem beforeFrontier_congr (a a' : AtlasState) (p : Nat × Nat)
    (h : a'.currOffset = a.currOffset) :
    beforeFrontier a' p ↔ beforeFrontier a p := by
  rw [beforeFrontier, beforeFrontier, h]

/-- Helper: `isRealB` depends only on the atlas dimensions. -/
theorem isRealB_congr (a a' : AtlasState)
    (h1 : a'.width = a.width) (h2 : a'.height = a.height) :
    (fun p => isRealB a' p) = fun p => isRealB a p := by
  funext p
  rw [isRealB, isRealB, h1, h2]

/-- Helper: a geometrically valid slot is a real slot. -/
theorem real_of_slotOk (a : AtlasState) (p : Nat × Nat)
    (h : slotOk a p) : isRealB a p = true := by
  obtain ⟨h1, h2, h3, h4⟩ := h
  rw [isRealB]
  refine decide_eq_true ⟨?_, ?_⟩
  · intro he
    rw [he] at h4
    exact absurd h4 (by rw [unloadedOf]; omega)
  · intro he
    rw [he] at h3
    exact absurd h3 (by rw [notFoundOf]; omega)

/-- Helper: the UNLOADED sentinel is not a real slot. -/
theorem isRealB_unloaded (a : AtlasState) :
    ¬ isRealB a (unloadedOf a.height) = true := by
  rw [isRealB]
  simp

/-- Helper: the NOT_FOUND sentinel is not a real slot. -/
theorem isRealB_notFound (a : AtlasState) :
    ¬ isRealB a (notFoundOf a.width) = true := by
  rw [isRealB]
  simp

/-- Helper: a successful admission into an unloaded cell preserves the
residency invariant, and the atlas dimensions and tile resolution are
unchanged. -/
theorem admit_preserves (maxDim : Nat) (s : DriverState) (i : Nat)
    (hi : i < s.tiles.length) (hR : 0 < s.atlas.currTileRes)
    (hinv : RInv maxDim s)
    (hunl : s.tiles.getD i (0, 0) = unloadedOf s.atlas.height)
    (slot : Nat × Nat) (a2 : AtlasState)
    (hup : upload_tile s.atlas = some (slot, a2)) :
    RInv maxDim ⟨a2, s.tiles.set i slot⟩ ∧
    a2.width = s.atlas.width ∧ a2.height = s.atlas.height ∧
    a2.currTileRes = s.atlas.currTileRes := by
  obtain ⟨hW, hH, hfx, hnd, hmem⟩ := hinv
  have htileseq : s.tiles =
      s.tiles.take i ++ unloadedOf s.atlas.height :: s.tiles.drop (i + 1) := by
    have h := getD_decomp s.tiles i hi
    rw [hunl] at h
    exact h
  have hset : s.tiles.set i slot =
      s.tiles.take i ++ slot :: s.tiles.drop (i + 1) := set_decomp _ _ _ hi
  set F1 := (s.tiles.take i).filter (fun p => isRealB s.atlas p) with hF1
  set F2 := (s.tiles.drop (i + 1)).filter (fun p => isRealB s.atlas p) with hF2
  have holdlive : liveSlots s = (F1 ++ F2) ++ s.atlas.collectedTiles := by
    rw [liveSlots]
    conv_lhs => rw [htileseq]
    rw [List.filter_append, List.filter_cons, if_neg (isRealB_unloaded s.atlas),
      hF1, hF2, List.append_assoc]
  by_cases hne : s.atlas.collectedTiles = []
  · by_cases hh2 : s.atlas.height ≤ s.atlas.currOffset.2 + s.atlas.currTileRes
    · rw [upload_tile_refuse s.atlas hne hh2] at hup
      cases hup
    · rw [upload_tile_bump s.atlas hne hh2] at hup
      injection hup with h1
      injection h1 with hslot ha2
      have hbw : a2.width = s.atlas.width := by
        rw [← ha2]
        exact (bumpAdvance_fields s.atlas).1
      have hbh : a2.height = s.atlas.height := by
        rw [← ha2]
        exact (bumpAdvance_fields s.atlas).2.1
      have hbr : a2.currTileRes = s.atlas.currTileRes := by
        rw [← ha2]
        exact (bumpAdvance_fields s.atlas).2.2.1
      have hbc : a2.collectedTiles = [] := by
        rw [← ha2, (bumpAdvance_fields s.atlas).2.2.2, hne]
      have hsok : slotOk s.atlas slot := by
        rw [← hslot, slotOk]
        omega
      have hnewlive : liveSlots ⟨a2, s.tiles.set i slot⟩ =
          (F1 ++ slot :: F2) ++ [] := by
        rw [liveSlots]
        simp only [isRealB_congr s.atlas a2 hbw hbh]
        rw [hset, List.filter_append, List.filter_cons,
          if_pos (real_of_slotOk s.atlas _ hsok), hbc, hF1, hF2]
      have hperm : List.Perm (liveSlots ⟨a2, s.tiles.set i slot⟩)
          (slot :: liveSlots s) := by
        rw [hnewlive, holdlive, hne, List.append_nil, List.append_nil]
        exact List.perm_middle
      refine ⟨?_, hbw, hbh, hbr⟩
      rw [RInv]
      dsimp only
      refine ⟨by rw [hbw]; exact hW, by rw [hbh]; exact hH, ?_, ?_, ?_⟩
      · rw [hbr, hbw, ← ha2]
        exact bumpAdvance_frontier_x s.atlas hfx
      · rw [hperm.nodup_iff, List.nodup_cons]
        refine ⟨?_, hnd⟩
        intro hmem0
        exact before_ne s.atlas _ (hmem _ hmem0).2 hslot.symm
      · intro p hp
        rcases List.mem_cons.mp ((hperm.mem_iff).mp hp) with hp1 | hp1
        · rw [hp1]
          refine ⟨(slotOk_congr s.atlas a2 _ hbw hbh hbr).mpr hsok, ?_⟩
          rw [← ha2, ← hslot]
          exact bumpAdvance_fresh s.atlas hR
        · have h2 := hmem p hp1
          refine ⟨(slotOk_congr s.atlas a2 p hbw hbh hbr).mpr h2.1, ?_⟩
          rw [← ha2]
          exact bumpAdvance_before s.atlas hR p h2.2
  · rw [upload_tile_pop s.atlas hne] at hup
    injection hup with h1
    injection h1 with hslot ha2
    have hbw : a2.width = s.atlas.width := by
      rw [← ha2]
      exact (bumpAdvance_fields _).1
    have hbh : a2.height = s.atlas.height := by
      rw [← ha2]
      exact (bumpAdvance_fields _).2.1
    have hbr : a2.currTileRes = s.atlas.currTileRes := by
      rw [← ha2]
      exact (bumpAdvance_fields _).2.2.1
    have hbc : a2.collectedTiles = s.atlas.collectedTiles.dropLast := by
      rw [← ha2]
      exact (bumpAdvance_fields _).2.2.2
    have hlmem : slot ∈ s.atlas.collectedTiles := by
      rw [← hslot]
      exact List.getLast_mem hne
    have hlive0 : slot ∈ liveSlots s := by
      rw [liveSlots]
      exact List.mem_append_right _ hlmem
    obtain ⟨hsok, hsbef⟩ := hmem slot hlive0
    have hLdec : s.atlas.collectedTiles =
        s.atlas.collectedTiles.dropLast ++ [slot] := by
      conv_lhs => rw [← List.dropLast_append_getLast hne]
      rw [hslot]
    have hnewlive : liveSlots ⟨a2, s.tiles.set i slot⟩ =
        (F1 ++ slot :: F2) ++ s.atlas.collectedTiles.dropLast := by
      rw [liveSlots]
      simp only [isRealB_congr s.atlas a2 hbw hbh]
      rw [hset, List.filter_append, List.filter_cons,
        if_pos (real_of_slotOk s.atlas _ hsok), hbc, hF1, hF2]
    have hperm : List.Perm (liveSlots ⟨a2, s.tiles.set i slot⟩)
        (liveSlots s) := by
      rw [hnewlive, holdlive]
      conv_rhs => rw [hLdec]
      have p2 : List.Perm ((F1 ++ slot :: F2) ++ s.atlas.collectedTiles.dropLast)
          ((slot :: (F1 ++ F2)) ++ s.atlas.collectedTiles.dropLast) :=
        List.Perm.append_right _ List.perm_middle
      have p3 : List.Perm
          (((F1 ++ F2) ++ s.atlas.collectedTiles.dropLast) ++ [slot])
          (slot :: ((F1 ++ F2) ++ s.atlas.collectedTiles.dropLast)) :=
        List.perm_append_singleton _ _
      have he4 : ((F1 ++ F2) ++ s.atlas.collectedTiles.dropLast) ++ [slot] =
          (F1 ++ F2) ++ (s.atlas.collectedTiles.dropLast ++ [slot]) := by
        rw [List.append_assoc]
      exact p2.trans (he4 ▸ p3.symm)
    have hoff : a2.currOffset = (bumpAdvance { s.atlas with collectedTiles :=
        s.atlas.collectedTiles.dropLast }).currOffset := by
      rw [ha2]
    refine ⟨?_, hbw, hbh, hbr⟩
    rw [RInv]
    dsimp only
    refine ⟨by rw [hbw]; exact hW, by rw [hbh]; exact hH, ?_, ?_, ?_⟩
    · rw [hbr, hbw, ← ha2]
      exact bumpAdvance_frontier_x _ hfx
    · exact hperm.nodup_iff.mpr hnd
    · intro p hp
      have h2 := hmem p (hperm.mem_iff.mp hp)
      refine ⟨(slotOk_congr s.atlas a2 p hbw hbh hbr).mpr h2.1, ?_⟩
      have h3 : beforeFrontier { s.atlas with collectedTiles :=
          s.atlas.collectedTiles.dropLast } p :=
        (beforeFrontier_congr s.atlas _ p rfl).mpr h2.2
      have h4 := bumpAdvance_before { s.atlas with collectedTiles :=
        s.atlas.collectedTiles.dropLast } hR p h3
      rw [← ha2]
      exact h4

/-- Helper: positional effect of the GC pass (length, untouched prefix,
per-cell tail action, pushed slots, and the retry verdict). -/
theorem collect_tiles_effect (W H : Nat) (used : List Nat)
    (tiles : List (Nat × Nat)) (start : Nat)
    (hlen : used.length = tiles.length) (hstart : start < tiles.length) :
    (collect_tiles W H used tiles start).1.length = tiles.length ∧
    (∀ j, j ≤ start →
      (collect_tiles W H used tiles start).1.getD j (0, 0) =
        tiles.getD j (0, 0)) ∧
    (∀ j, start < j → j < tiles.length →
      (collect_tiles W H used tiles start).1.getD j (0, 0) =
        gcCell W H (used.getD j 0, tiles.getD j (0, 0))) := by
  set z := (used.drop (start + 1)).zip (tiles.drop (start + 1)) with hz
  obtain ⟨hlen1, hget, hpush, hneed, hcoll⟩ := collectLoop_spec W H z
  have hzlen : z.length = tiles.length - (start + 1) := by
    rw [hz, List.length_zip, List.length_drop, List.length_drop, hlen,
      min_self]
  have htake : (tiles.take (start + 1)).length = start + 1 := by
    rw [List.length_take]
    omega
  have hdrop : ((tiles.drop (start + 1)).drop z.length).length = 0 := by
    rw [List.length_drop, List.length_drop]
    omega
  refine ⟨?_, ?_, ?_⟩
  · simp only [collect_tiles, ← hz, List.length_append]
    omega
  · intro j hj
    simp only [collect_tiles, ← hz]
    rw [List.getD_append _ _ _ _
        (by rw [List.length_append, htake]; omega),
      List.getD_append _ _ _ _ (by rw [htake]; omega)]
    exact getD_take_lt _ _ _ _ (by omega)
  · intro j hj1 hj2
    simp only [collect_tiles, ← hz]
    rw [List.getD_append _ _ _ _
        (by rw [List.length_append, htake, hlen1, hzlen]; omega),
      List.getD_append_right _ _ _ _ (by rw [htake]; omega), htake]
    rw [hget (j - (start + 1)) (by omega)]
    congr 1
    have h1 : z.getD (j - (start + 1)) (0, (0, 0)) =
        ((used.drop (start + 1)).getD (j - (start + 1)) 0,
         (tiles.drop (start + 1)).getD (j - (start + 1)) (0, 0)) := by
      rw [hz]
      exact getD_zip _ _ _ _ _
        (by rw [List.length_drop]; omega)
        (by rw [List.length_drop]; omega)
    rw [h1, getD_drop_add, getD_drop_add]
    congr 2 <;> omega

/-- Helper: the GC pass leaves the multiset of live slots unchanged --
the freed cells' slots move from the residency table to the free list,
and every other live slot stays put.  When the free list was empty
before the pass, the live-slot list itself is unchanged. -/
theorem gc_live (used : List Nat) (s : DriverState) (i : Nat)
    (hlen : used.length = s.tiles.length) (hi : i < s.tiles.length)
    (hfree : s.atlas.collectedTiles = []) :
    liveSlots ⟨gcAtlas s.atlas
        (collect_tiles s.atlas.width s.atlas.height used s.tiles i).2.1,
      (collect_tiles s.atlas.width s.atlas.height used s.tiles i).1⟩ =
      liveSlots s := by
  set z := (used.drop (i + 1)).zip (s.tiles.drop (i + 1)) with hz
  obtain ⟨hlen1, hget, hpush, hneed, hcoll⟩ :=
    collectLoop_spec s.atlas.width s.atlas.height z
  have hzlen : z.length = s.tiles.length - (i + 1) := by
    rw [hz, List.length_zip, List.length_drop, List.length_drop, hlen,
      min_self]
  have htail0 : (s.tiles.drop (i + 1)).drop z.length = [] :=
    List.drop_eq_nil_of_le (by rw [List.length_drop]; omega)
  have hcongA : (fun p => isRealB (gcAtlas s.atlas
      (collect_tiles s.atlas.width s.atlas.height used s.tiles i).2.1) p) =
      fun p => isRealB s.atlas p :=
    isRealB_congr s.atlas _ rfl rfl
  have hrfl : (fun p => decide (p ≠ unloadedOf s.atlas.height ∧
      p ≠ notFoundOf s.atlas.width)) = fun p => isRealB s.atlas p :=
    funext fun p => rfl
  have hloopfilter : (collectLoop s.atlas.width s.atlas.height z).1.filter
      (fun p => isRealB s.atlas p) = [] := by
    rw [← hrfl]
    exact collectLoop_no_real s.atlas.width s.atlas.height z
  have hfreed : ∀ x : Nat × (Nat × Nat),
      gcFreedB s.atlas.width s.atlas.height x = isRealB s.atlas x.2 :=
    fun x => gcFreedB_eq_real s.atlas.width s.atlas.height x
  have hsnd : z.map Prod.snd = s.tiles.drop (i + 1) := by
    rw [hz]
    exact List.map_snd_zip _ _ (by rw [List.length_drop, List.length_drop, hlen])
  have hpushed : (collect_tiles s.atlas.width s.atlas.height used s.tiles i).2.1 =
      (s.tiles.drop (i + 1)).filter (fun p => isRealB s.atlas p) := by
    simp only [collect_tiles, ← hz]
    rw [hpush, filter_snd_comm (fun p => isRealB s.atlas p) _ hfreed z, hsnd]
  have hmidtiles : (collect_tiles s.atlas.width s.atlas.height used s.tiles i).1 =
      s.tiles.take (i + 1) ++ (collectLoop s.atlas.width s.atlas.height z).1 := by
    simp only [collect_tiles, ← hz]
    rw [htail0, List.append_nil]
  rw [liveSlots, liveSlots, hcongA, hmidtiles, List.filter_append, hloopfilter,
    List.append_nil]
  show _ ++ ([] ++ _) = _
  rw [List.nil_append, hpushed, hfree, List.append_nil]
  conv_rhs => rw [← List.take_append_drop (i + 1) s.tiles]
  rw [List.filter_append]
  simp

/-- Helper: the residency invariant transfers along equality of live
slots when the atlas geometry and bump pointer agree. -/
theorem RInv_of_live_eq (maxDim : Nat) (s s' : DriverState)
    (hw : s'.atlas.width = s.atlas.width)
    (hh : s'.atlas.height = s.atlas.height)
    (hr : s'.atlas.currTileRes = s.atlas.currTileRes)
    (ho : s'.atlas.currOffset = s.atlas.currOffset)
    (hl : liveSlots s' = liveSlots s) (hinv : RInv maxDim s) :
    RInv maxDim s' := by
  obtain ⟨h1, h2, h3, h4, h5⟩ := hinv
  refine ⟨by rw [hw]; exact h1, by rw [hh]; exact h2,
    by rw [ho, hr, hw]; exact h3, by rw [hl]; exact h4, ?_⟩
  intro p hp
  rw [hl] at hp
  have h6 := h5 p hp
  exact ⟨(slotOk_congr _ _ p hw hh hr).mpr h6.1,
    (beforeFrontier_congr _ _ p ho).mpr h6.2⟩

/-- Helper: evicting an unused resident cell preserves the residency
invariant. -/
theorem evict_preserves (maxDim : Nat) (s : DriverState) (i : Nat)
    (hi : i < s.tiles.length) (hinv : RInv maxDim s)
    (hreal : s.tiles.getD i (0, 0) ≠ unloadedOf s.atlas.height ∧
      s.tiles.getD i (0, 0) ≠ notFoundOf s.atlas.width) :
    RInv maxDim ⟨return_tile s.atlas (s.tiles.getD i (0, 0)),
      s.tiles.set i (unloadedOf s.atlas.height)⟩ := by
  obtain ⟨hW, hH, hfx, hnd, hmem⟩ := hinv
  have htileseq : s.tiles =
      s.tiles.take i ++ s.tiles.getD i (0, 0) :: s.tiles.drop (i + 1) :=
    getD_decomp s.tiles i hi
  have hset : s.tiles.set i (unloadedOf s.atlas.height) =
      s.tiles.take i ++ unloadedOf s.atlas.height :: s.tiles.drop (i + 1) :=
    set_decomp _ _ _ hi
  set F1 := (s.tiles.take i).filter (fun p => isRealB s.atlas p) with hF1
  set F2 := (s.tiles.drop (i + 1)).filter (fun p => isRealB s.atlas p) with hF2
  have hrealb : isRealB s.atlas (s.tiles.getD i (0, 0)) = true :=
    decide_eq_true hreal
  have holdlive : liveSlots s =
      (F1 ++ s.tiles.getD i (0, 0) :: F2) ++ s.atlas.collectedTiles := by
    rw [liveSlots]
    conv_lhs => rw [htileseq]
    rw [List.filter_append, List.filter_cons, if_pos hrealb, hF1, hF2]
  have hanew : (return_tile s.atlas (s.tiles.getD i (0, 0))).collectedTiles =
      s.atlas.collectedTiles ++ [s.tiles.getD i (0, 0)] := rfl
  have hnewlive : liveSlots ⟨return_tile s.atlas (s.tiles.getD i (0, 0)),
      s.tiles.set i (unloadedOf s.atlas.height)⟩ =
      (F1 ++ F2) ++ (s.atlas.collectedTiles ++ [s.tiles.getD i (0, 0)]) := by
    rw [liveSlots]
    simp only [isRealB_congr s.atlas
      (return_tile s.atlas (s.tiles.getD i (0, 0))) rfl rfl]
    rw [hset, List.filter_append, List.filter_cons,
      if_neg (isRealB_unloaded s.atlas), hanew, hF1, hF2]
  have hperm : List.Perm (liveSlots ⟨return_tile s.atlas (s.tiles.getD i (0, 0)),
      s.tiles.set i (unloadedOf s.atlas.height)⟩) (liveSlots s) := by
    rw [hnewlive, holdlive]
    have p1 : List.Perm
        (((F1 ++ F2) ++ s.atlas.collectedTiles) ++ [s.tiles.getD i (0, 0)])
        (s.tiles.getD i (0, 0) :: ((F1 ++ F2) ++ s.atlas.collectedTiles)) :=
      List.perm_append_singleton _ _
    have p2 : List.Perm ((F1 ++ s.tiles.getD i (0, 0) :: F2) ++
        s.atlas.collectedTiles)
        ((s.tiles.getD i (0, 0) :: (F1 ++ F2)) ++ s.atlas.collectedTiles) :=
      List.Perm.append_right _ List.perm_middle
    have he : ((F1 ++ F2) ++ s.atlas.collectedTiles) ++
        [s.tiles.getD i (0, 0)] =
        (F1 ++ F2) ++ (s.atlas.collectedTiles ++ [s.tiles.getD i (0, 0)]) := by
      rw [List.append_assoc]
    exact (he ▸ p1).trans p2.symm
  refine ⟨hW, hH, hfx, hperm.nodup_iff.mpr hnd, ?_⟩
  intro p hp
  exact hmem p (hperm.mem_iff.mp hp)

/-- Helper: recording NOT_FOUND in an unloaded cell preserves the
residency invariant. -/
theorem absent_preserves (maxDim : Nat) (s : DriverState) (i : Nat)
    (hi : i < s.tiles.length) (hinv : RInv maxDim s)
    (hunl : s.tiles.getD i (0, 0) = unloadedOf s.atlas.height) :
    RInv maxDim ⟨s.atlas, s.tiles.set i (notFoundOf s.atlas.width)⟩ := by
  refine RInv_of_live_eq maxDim s _ rfl rfl rfl rfl ?_ hinv
  have htileseq : s.tiles =
      s.tiles.take i ++ unloadedOf s.atlas.height :: s.tiles.drop (i + 1) := by
    have h := getD_decomp s.tiles i hi
    rw [hunl] at h
    exact h
  have hset : s.tiles.set i (notFoundOf s.atlas.width) =
      s.tiles.take i ++ notFoundOf s.atlas.width :: s.tiles.drop (i + 1) :=
    set_decomp _ _ _ hi
  rw [liveSlots, liveSlots]
  conv_rhs => rw [htileseq]
  rw [hset, List.filter_append, List.filter_cons,
    if_neg (isRealB_notFound s.atlas), List.filter_append, List.filter_cons,
    if_neg (isRealB_unloaded s.atlas)]

/-- Helper: fields of a successful atlas recreation. -/
theorem recreate_fields (maxDim : Nat) (a a2 : AtlasState)
    (h : recreate_atlas maxDim a = some a2) :
    a2.width = min (a.width * 2) maxDim ∧
    a2.height = min (a.height * 2) maxDim ∧
    a2.currTileRes = 0 ∧ a2.currOffset = a.currOffset ∧
    a2.collectedTiles = a.collectedTiles := by
  rw [recreate_atlas] at h
  split at h
  · cases h
  · injection h with h1
    rw [← h1]
    exact ⟨rfl, rfl, rfl, rfl, rfl⟩

/-- Helper: a successful atlas resize (which resets every residency
entry to UNLOADED) preserves the residency invariant. -/
theorem resize_preserves (maxDim : Nat) (s : DriverState)
    (hinv : RInv maxDim s) (a2 : AtlasState)
    (hrec : recreate_atlas maxDim s.atlas = some a2) :
    RInv maxDim ⟨a2, fillUnloaded s.tiles a2.height⟩ := by
  obtain ⟨hW, hH, hfx, hnd, hmem⟩ := hinv
  obtain ⟨hw2, hh2, hr2, ho2, hc2⟩ := recreate_fields maxDim s.atlas a2 hrec
  have hWle : s.atlas.width ≤ a2.width := by
    rw [hw2]
    exact le_min (by omega) hW
  have hHle : s.atlas.height ≤ a2.height := by
    rw [hh2]
    exact le_min (by omega) hH
  have hfill : (fillUnloaded s.tiles a2.height).filter
      (fun p => isRealB a2 p) = [] := by
    rw [fillUnloaded]
    induction s.tiles.length with
    | zero => rfl
    | succ n ih =>
      rw [List.replicate_succ, List.filter_cons, if_neg ?_, ih]
      have h := isRealB_unloaded a2
      exact h
  have hnewlive : liveSlots ⟨a2, fillUnloaded s.tiles a2.height⟩ =
      s.atlas.collectedTiles := by
    rw [liveSlots, hfill, List.nil_append, hc2]
  rw [RInv]
  dsimp only
  refine ⟨by rw [hw2]; exact min_le_right _ _,
    by rw [hh2]; exact min_le_right _ _, ?_, ?_, ?_⟩
  · rw [ho2, hr2]
    omega
  · rw [hnewlive]
    rw [liveSlots] at hnd
    exact (List.nodup_append.mp hnd).2.1
  · intro p hp
    rw [hnewlive] at hp
    have hlive : p ∈ liveSlots s := by
      rw [liveSlots]
      exact List.mem_append_right _ hp
    obtain ⟨⟨hs1, hs2, hs3, hs4⟩, hbef⟩ := hmem p hlive
    refine ⟨⟨by rw [hr2]; omega, by rw [hr2]; omega,
      by omega, by omega⟩, ?_⟩
    exact (beforeFrontier_congr s.atlas a2 p ho2).mpr hbef

/-- Helper: a refused admission means the free list was empty and the
frontier row did not fit. -/
theorem upload_tile_eq_none (a : AtlasState) (h : upload_tile a = none) :
    a.collectedTiles = [] ∧
    a.height ≤ a.currOffset.2 + a.currTileRes := by
  by_cases hne : a.collectedTiles ≠ []
  · rw [upload_tile_pop a hne] at h
    cases h
  · have he := not_not.mp hne
    by_cases hh : a.height ≤ a.currOffset.2 + a.currTileRes
    · exact ⟨he, hh⟩
    · rw [upload_tile_bump a he hh] at h
      cases h

/-- Helper: one driver-loop iteration preserves the residency
invariant; the residency table keeps its length, and while the frame
has not stopped the tile resolution is unchanged. -/
theorem stepCell_preserves (maxDim : Nat) (used : List Nat)
    (fetch : Nat → FetchOutcome) (s : DriverState) (i : Nat)
    (hi : i < s.tiles.length) (hlen : used.length = s.tiles.length)
    (hR : 0 < s.atlas.currTileRes) (hinv : RInv maxDim s) :
    RInv maxDim (stepCell maxDim used fetch s i).1 ∧
    (stepCell maxDim used fetch s i).1.tiles.length = s.tiles.length ∧
    ((stepCell maxDim used fetch s i).2 = false →
      (stepCell maxDim used fetch s i).1.atlas.currTileRes =
        s.atlas.currTileRes) := by
  rw [stepCell]
  by_cases h1 : used.getD i 0 = 0
  · rw [if_pos h1]
    by_cases h2 : s.tiles.getD i (0, 0) ≠ unloadedOf s.atlas.height ∧
        s.tiles.getD i (0, 0) ≠ notFoundOf s.atlas.width
    · rw [if_pos h2]
      exact ⟨evict_preserves maxDim s i hi hinv h2,
        by simp, fun _ => rfl⟩
    · rw [if_neg h2]
      exact ⟨hinv, rfl, fun _ => rfl⟩
  · rw [if_neg h1]
    by_cases h3 : s.tiles.getD i (0, 0) ≠ unloadedOf s.atlas.height
    · rw [if_pos h3]
      exact ⟨hinv, rfl, fun _ => rfl⟩
    · rw [if_neg h3]
      have hunl : s.tiles.getD i (0, 0) = unloadedOf s.atlas.height :=
        not_not.mp h3
      rcases hfe : fetch i with _ | _ | _
      · dsimp only
        exact ⟨absent_preserves maxDim s i hi hinv hunl,
          by simp, fun _ => rfl⟩
      · dsimp only
        exact ⟨hinv, rfl, fun _ => rfl⟩
      · dsimp only
        rcases hup : upload_tile s.atlas with _ | ⟨⟨slot, a2⟩⟩
        · dsimp only
          obtain ⟨hfree, hfull⟩ := upload_tile_eq_none s.atlas hup
          obtain ⟨hmlen, hmget, _⟩ := collect_tiles_effect s.atlas.width
            s.atlas.height used s.tiles i hlen hi
          have hmid : RInv maxDim ⟨gcAtlas s.atlas
              (collect_tiles s.atlas.width s.atlas.height used s.tiles i).2.1,
              (collect_tiles s.atlas.width s.atlas.height used s.tiles i).1⟩ :=
            RInv_of_live_eq maxDim s _ rfl rfl rfl rfl
              (gc_live used s i hlen hi hfree) hinv
          by_cases hgc : (collect_tiles s.atlas.width s.atlas.height used
              s.tiles i).2.2 = true
          · rw [if_pos hgc]
            rcases hup2 : upload_tile (gcAtlas s.atlas
                (collect_tiles s.atlas.width s.atlas.height used
                  s.tiles i).2.1) with _ | ⟨⟨slot, a2⟩⟩
            · dsimp only
              exact ⟨hmid, by rw [hmlen], fun h => nomatch h⟩
            · dsimp only
              obtain ⟨hinv2, hw2, hh2, hr2⟩ := admit_preserves maxDim
                ⟨gcAtlas s.atlas (collect_tiles s.atlas.width s.atlas.height
                  used s.tiles i).2.1,
                 (collect_tiles s.atlas.width s.atlas.height used s.tiles i).1⟩
                i (by dsimp only; rw [hmlen]; exact hi) hR hmid
                (by dsimp only; rw [hmget i le_rfl]; exact hunl) slot a2 hup2
              exact ⟨hinv2, by simp [hmlen], fun _ => hr2⟩
          · rw [if_neg hgc]
            rcases hrec : recreate_atlas maxDim (gcAtlas s.atlas
                (collect_tiles s.atlas.width s.atlas.height used
                  s.tiles i).2.1) with _ | a2
            · dsimp only
              exact ⟨hmid, by rw [hmlen], fun h => nomatch h⟩
            · dsimp only
              refine ⟨resize_preserves maxDim _ hmid a2 hrec, ?_, fun h => nomatch h⟩
              rw [fillUnloaded, List.length_replicate, hmlen]
        · dsimp only
          obtain ⟨hinv2, hw2, hh2, hr2⟩ :=
            admit_preserves maxDim s i hi hR hinv hunl slot a2 hup
          exact ⟨hinv2, by simp, fun _ => hr2⟩

/-- Helper: a duplicate-free list counts every value at most once. -/
theorem count_le_one_of_nodup (l : List (Nat × Nat)) (h : l.Nodup)
    (v : Nat × Nat) : List.count v l ≤ 1 := by
  induction l with
  | nil => simp
  | cons a l ih =>
    rcases List.nodup_cons.mp h with ⟨hna, hl⟩
    rw [List.count_cons]
    by_cases hav : a = v
    · subst hav
      rw [List.count_eq_zero_of_not_mem hna]
      simp
    · have hb : (a == v) = false := beq_eq_false_iff_ne.mpr hav
      rw [hb]
      simpa using ih hl

/-- Helper: under the invariant, no two cells hold the same real slot. -/
theorem RInv_distinct (maxDim : Nat) (s : DriverState)
    (hinv : RInv maxDim s) :
    ∀ i j, i < s.tiles.length → j < s.tiles.length → i ≠ j →
      isRealSlot s.atlas (s.tiles.getD i (0, 0)) →
      s.tiles.getD i (0, 0) ≠ s.tiles.getD j (0, 0) := by
  obtain ⟨_, _, _, hnd, _⟩ := hinv
  have hfu : (s.tiles.filter (fun p => isRealB s.atlas p)).Nodup :=
    (List.nodup_append.mp (by rw [liveSlots] at hnd; exact hnd)).1
  intro i j hi hj hij hreal heq
  have hrealb : isRealB s.atlas (s.tiles.getD i (0, 0)) = true :=
    decide_eq_true hreal
  have hcnt : 2 ≤ List.count (s.tiles.getD i (0, 0)) s.tiles := by
    rcases Nat.lt_or_ge i j with h | h
    · exact two_le_count_of_two_pos s.tiles i j h hj heq
    · have hji : j < i := by omega
      have h2 := two_le_count_of_two_pos s.tiles j i hji hi heq.symm
      rw [← heq] at h2
      exact h2
  have hcf : List.count (s.tiles.getD i (0, 0))
      (s.tiles.filter (fun p => isRealB s.atlas p)) =
      List.count (s.tiles.getD i (0, 0)) s.tiles :=
    List.count_filter hrealb
  have hle : List.count (s.tiles.getD i (0, 0))
      (s.tiles.filter (fun p => isRealB s.atlas p)) ≤ 1 :=
    count_le_one_of_nodup _ hfu _
  have hboth : 2 ≤ 1 := le_trans (le_of_le_of_eq hcnt hcf.symm) hle
  exact absurd hboth (by omega)

/-- Helper: under the invariant, every real residency entry is a
geometrically valid slot. -/
theorem RInv_valid (maxDim : Nat) (s : DriverState)
    (hinv : RInv maxDim s) :
    ∀ i, i < s.tiles.length →
      isRealSlot s.atlas (s.tiles.getD i (0, 0)) →
      slotOk s.atlas (s.tiles.getD i (0, 0)) := by
  obtain ⟨_, _, _, _, hmem⟩ := hinv
  intro i hi hreal
  have hmem1 : s.tiles.getD i (0, 0) ∈ s.tiles := by
    rw [List.getD_eq_getElem _ _ hi]
    exact List.getElem_mem hi
  have hlive : s.tiles.getD i (0, 0) ∈ liveSlots s := by
    rw [liveSlots]
    exact List.mem_append_left _
      (List.mem_filter.mpr ⟨hmem1, decide_eq_true hreal⟩)
  exact (hmem _ hlive).1

/-- Helper: a driver frame preserves the residency invariant and the
residency-table length. -/
theorem driverFrame_preserves (maxDim : Nat) (used : List Nat)
    (fetch : Nat → FetchOutcome) :
    ∀ (idxs : List Nat) (s : DriverState),
      (∀ i ∈ idxs, i < s.tiles.length) →
      used.length = s.tiles.length →
      0 < s.atlas.currTileRes → RInv maxDim s →
      RInv maxDim (driverFrame maxDim used fetch idxs s) ∧
      (driverFrame maxDim used fetch idxs s).tiles.length = s.tiles.length
  | [], s, _, _, _, hinv => ⟨hinv, rfl⟩
  | i :: rest, s, hidx, hlen, hR, hinv => by
    rw [driverFrame]
    obtain ⟨hinv2, hlen2, hres2⟩ := stepCell_preserves maxDim used fetch s i
      (hidx i (by simp)) hlen hR hinv
    by_cases hstop : (stepCell maxDim used fetch s i).2 = true
    · rw [if_pos hstop]
      exact ⟨hinv2, hlen2⟩
    · rw [if_neg hstop]
      have hb : (stepCell maxDim used fetch s i).2 = false :=
        Bool.eq_false_iff.mpr hstop
      obtain ⟨hinv3, hlen3⟩ := driverFrame_preserves maxDim used fetch rest
        (stepCell maxDim used fetch s i).1
        (fun j hj => by rw [hlen2]; exact hidx j (List.mem_cons_of_mem _ hj))
        (by rw [hlen2]; exact hlen)
        (by rw [hres2 hb]; exact hR)
        hinv2
      exact ⟨hinv3, by rw [hlen3, hlen2]⟩

/-- **C8** Residency-table well-formedness: starting a `populate_tiles`
frame from any well-formed driver state (positive tile resolution,
residency table and `used` buffer of matching length), after the frame
no two cells hold the same real slot, and every real residency entry is
a geometrically valid slot -- `x + R ≤ width`, `y + R ≤ height`, with
origin strictly inside the atlas -- so it can never equal the UNLOADED
`(0, height)` or NOT_FOUND `(width, 0)` sentinel. -/
theorem residency_wf (maxDim : Nat) (used : List Nat)
    (fetch : Nat → FetchOutcome) (idxs : List Nat) (s0 : DriverState)
    (hidx : ∀ i ∈ idxs, i < s0.tiles.length)
    (hlen : used.length = s0.tiles.length)
    (hR : 0 < s0.atlas.currTileRes)
    (hinv : RInv maxDim s0) :
    (∀ i j, i < (driverFrame maxDim used fetch idxs s0).tiles.length →
      j < (driverFrame maxDim used fetch idxs s0).tiles.length → i ≠ j →
      isRealSlot (driverFrame maxDim used fetch idxs s0).atlas
        ((driverFrame maxDim used fetch idxs s0).tiles.getD i (0, 0)) →
      (driverFrame maxDim used fetch idxs s0).tiles.getD i (0, 0) ≠
        (driverFrame maxDim used fetch idxs s0).tiles.getD j (0, 0)) ∧
    (∀ i, i < (driverFrame maxDim used fetch idxs s0).tiles.length →
      isRealSlot (driverFrame maxDim used fetch idxs s0).atlas
        ((driverFrame maxDim used fetch idxs s0).tiles.getD i (0, 0)) →
      slotOk (driverFrame maxDim used fetch idxs s0).atlas
        ((driverFrame maxDim used fetch idxs s0).tiles.getD i (0, 0)) ∧
      (driverFrame maxDim used fetch idxs s0).tiles.getD i (0, 0) ≠
        unloadedOf (driverFrame maxDim used fetch idxs s0).atlas.height ∧
      (driverFrame maxDim used fetch idxs s0).tiles.getD i (0, 0) ≠
        notFoundOf (driverFrame maxDim used fetch idxs s0).atlas.width) := by
  obtain ⟨hinv2, _⟩ :=
    driverFrame_preserves maxDim used fetch idxs s0 hidx hlen hR hinv
  refine ⟨RInv_distinct maxDim _ hinv2, ?_⟩
  intro i hi hreal
  exact ⟨RInv_valid maxDim _ hinv2 i hi hreal, hreal.1, hreal.2⟩

/-- Witness for C8 at a concrete frame: a cleared 2x2 atlas with tile
resolution 1 and two cells, both used, both fetches succeeding; both
admissions allocate distinct valid slots. -/
theorem residency_wf_witness :
    (∀ i ∈ [0, 1], i < ((⟨⟨2, 2, 1, (0, 0), []⟩,
        [(0, 2), (0, 2)]⟩ : DriverState)).tiles.length) ∧
    RInv 4 ⟨⟨2, 2, 1, (0, 0), []⟩, [(0, 2), (0, 2)]⟩ ∧
    ((∀ i j, i < (driverFrame 4 [1, 1] (fun _ => FetchOutcome.ok) [0, 1]
        ⟨⟨2, 2, 1, (0, 0), []⟩, [(0, 2), (0, 2)]⟩).tiles.length →
      j < (driverFrame 4 [1, 1] (fun _ => FetchOutcome.ok) [0, 1]
        ⟨⟨2, 2, 1, (0, 0), []⟩, [(0, 2), (0, 2)]⟩).tiles.length → i ≠ j →
      isRealSlot (driverFrame 4 [1, 1] (fun _ => FetchOutcome.ok) [0, 1]
        ⟨⟨2, 2, 1, (0, 0), []⟩, [(0, 2), (0, 2)]⟩).atlas
        ((driverFrame 4 [1, 1] (fun _ => FetchOutcome.ok) [0, 1]
          ⟨⟨2, 2, 1, (0, 0), []⟩, [(0, 2), (0, 2)]⟩).tiles.getD i (0, 0)) →
      (driverFrame 4 [1, 1] (fun _ => FetchOutcome.ok) [0, 1]
        ⟨⟨2, 2, 1, (0, 0), []⟩, [(0, 2), (0, 2)]⟩).tiles.getD i (0, 0) ≠
        (driverFrame 4 [1, 1] (fun _ => FetchOutcome.ok) [0, 1]
          ⟨⟨2, 2, 1, (0, 0), []⟩, [(0, 2), (0, 2)]⟩).tiles.getD j (0, 0)) ∧
    (∀ i, i < (driverFrame 4 [1, 1] (fun _ => FetchOutcome.ok) [0, 1]
        ⟨⟨2, 2, 1, (0, 0), []⟩, [(0, 2), (0, 2)]⟩).tiles.length →
      isRealSlot (driverFrame 4 [1, 1] (fun _ => FetchOutcome.ok) [0, 1]
        ⟨⟨2, 2, 1, (0, 0), []⟩, [(0, 2), (0, 2)]⟩).atlas
        ((driverFrame 4 [1, 1] (fun _ => FetchOutcome.ok) [0, 1]
          ⟨⟨2, 2, 1, (0, 0), []⟩, [(0, 2), (0, 2)]⟩).tiles.getD i (0, 0)) →
      slotOk (driverFrame 4 [1, 1] (fun _ => FetchOutcome.ok) [0, 1]
        ⟨⟨2, 2, 1, (0, 0), []⟩, [(0, 2), (0, 2)]⟩).atlas
        ((driverFrame 4 [1, 1] (fun _ => FetchOutcome.ok) [0, 1]
          ⟨⟨2, 2, 1, (0, 0), []⟩, [(0, 2), (0, 2)]⟩).tiles.getD i (0, 0)) ∧
      (driverFrame 4 [1, 1] (fun _ => FetchOutcome.ok) [0, 1]
        ⟨⟨2, 2, 1, (0, 0), []⟩, [(0, 2), (0, 2)]⟩).tiles.getD i (0, 0) ≠
        unloadedOf (driverFrame 4 [1, 1] (fun _ => FetchOutcome.ok) [0, 1]
          ⟨⟨2, 2, 1, (0, 0), []⟩, [(0, 2), (0, 2)]⟩).atlas.height ∧
      (driverFrame 4 [1, 1] (fun _ => FetchOutcome.ok) [0, 1]
        ⟨⟨2, 2, 1, (0, 0), []⟩, [(0, 2), (0, 2)]⟩).tiles.getD i (0, 0) ≠
        notFoundOf (driverFrame 4 [1, 1] (fun _ => FetchOutcome.ok) [0, 1]
          ⟨⟨2, 2, 1, (0, 0), []⟩, [(0, 2), (0, 2)]⟩).atlas.width)) :=
  ⟨by decide, by decide,
    residency_wf 4 [1, 1] (fun _ => FetchOutcome.ok) [0, 1]
      ⟨⟨2, 2, 1, (0, 0), []⟩, [(0, 2), (0, 2)]⟩
      (by decide) (by decide) (by decide) (by decide)⟩

end A22x
